import Mathlib

/-!
# gosocks: the SOCKS5 request codec, the handshake and the session

A shallow embedding of `request.go` and of `server.go`: the codec, the handshake, the
request dispatcher, the default dialer and `Serve`.

Conventions of the embedding:

* a Go `byte` is a `Nat`; conversions that can truncate (`byte(len(r.Addr))`) carry an
  explicit `% 256`, and statements that need it say that a value is below 256;
* a Go `[]byte` is a `List Nat`;
* a Go `error` result is an `Option Error` (`none` is `nil`);
* a function that can stop with a run-time panic (slice index out of range) returns an
  outer `Option`, whose `none` is the panic;
* the network and the timing of the two concurrent copies of the relay are given from
  outside, as a `Net`; the calls of `Close` are counted on each stream.
-/

namespace Socks

/-! ## Constants -/

/-- Address type `IPV4 AddrType = 1`. -/
abbrev IPV4 : Nat := 1
/-- Address type `DOMAIN AddrType = 3`. -/
abbrev DOMAIN : Nat := 3
/-- Address type `IPV6 AddrType = 4`. -/
abbrev IPV6 : Nat := 4

/-- Command `CONNECT Cmd = 1`. -/
abbrev CONNECT : Nat := 1
/-- Command `BIND Cmd = 2`. -/
abbrev BIND : Nat := 2
/-- Command `UDP Cmd = 3`. -/
abbrev UDP : Nat := 3

/-- The socks version that is supported (`const VERSION = 0x5`). -/
abbrev VERSION : Nat := 5

/-! ## Errors -/

/-- The error values the embedded functions return; each constructor stands for one
`errors.New` message of the source (or for a library error). -/
inductive Error where
  /-- Message "Too few bytes to be a valid request". -/
  | tooFewBytes
  /-- Message "Missing address length". -/
  | missingAddressLength
  /-- Message "Unknown address type". -/
  | unknownAddressType
  /-- Message "Invalid address length: %d, remaining bytes: %d". -/
  | invalidAddressLength (addrLen remaining : Int)
  /-- Message "Version not supported". -/
  | versionNotSupported
  /-- Message "Command not understood". -/
  | commandNotUnderstood
  /-- Message "Missing address". -/
  | missingAddress
  /-- Message "Unsupported address type". -/
  | unsupportedAddressType
  /-- Message "Invalid port number". -/
  | invalidPortNumber
  /-- Message "Invalid socks version specified by client". -/
  | invalidSocksVersion
  /-- Message "Too many methods specified". -/
  | tooManyMethods
  /-- Message "Could not find a suitable method for authentication". -/
  | noSuitableMethod
  /-- The library value `io.EOF`. -/
  | EOF
  /-- An error returned by `Write` on the client stream. -/
  | writeError
  /-- The library value `io.ErrUnexpectedEOF`. -/
  | unexpectedEOF
  /-- The library value `io.ErrShortBuffer`. -/
  | shortBuffer
  /-- An error returned by `net.DialTimeout`. -/
  | dialError
  deriving DecidableEq

/-- The errors that `Request.Valid` produces. -/
def Error.isValidation : Error → Bool
  | .versionNotSupported => true
  | .commandNotUnderstood => true
  | .missingAddress => true
  | .unsupportedAddressType => true
  | .invalidPortNumber => true
  | _ => false

/-- The errors that `Unmarshal` produces itself, before it calls `Valid`. -/
def Error.isFraming : Error → Bool
  | .tooFewBytes => true
  | .missingAddressLength => true
  | .unknownAddressType => true
  | .invalidAddressLength _ _ => true
  | _ => false

/-! ## Port codec -/

/-- Go `IntToBytes(i uint16)`: `binary.Write(buf, binary.BigEndian, &i)` stores
`byte(i >> 8)` and then `byte(i)`. -/
def IntToBytes (i : Nat) : List Nat :=
  [(i >>> 8) % 256, i % 256]

/-- Go `BytesToInt(b)`: `binary.Read(buf, binary.BigEndian, &port)` reads two bytes and sets
`port = uint16(b[1]) | uint16(b[0])<<8`; with fewer than two bytes the read fails, the
error is dropped and `port` keeps its zero value. -/
def BytesToInt (b : List Nat) : Nat :=
  match b with
  | b0 :: b1 :: _ => (b1 % 65536 ||| (b0 % 65536) <<< 8) % 65536
  | _ => 0

/-! ## The request -/

/-- Type `Request` represents the socks request or reply between the server and a client. -/
structure Request where
  /-- Socks version -/
  Ver : Nat
  /-- Command or reply -/
  Cmd : Nat
  /-- Address type -/
  Atyp : Nat
  /-- Address -/
  Addr : List Nat
  /-- Port in big endian byte order -/
  Port : List Nat
  deriving DecidableEq

/-- Go `Marshal(r *Request) []byte`.  The function writes through its pointer argument (a
one-byte `Port` is replaced by its two-byte form), so the embedding returns the bytes
together with the request as it is after the call. `r.Port[0]` is read only under
`len(r.Port) == 1`. -/
def Marshal (r : Request) : List Nat × Request :=
  let bytes := [r.Ver, r.Cmd, 0, r.Atyp]
  let bytes := if r.Atyp = DOMAIN then bytes ++ [r.Addr.length % 256] else bytes
  let bytes := bytes ++ r.Addr
  let r := if r.Port.length = 1 then { r with Port := [0, r.Port.headD 0] } else r
  (bytes ++ r.Port, r)

/-- Library `bytes.Buffer.ReadByte` on a buffer whose unread bytes are `buf`: the byte, the error
and the unread bytes left. -/
def Buffer.ReadByte (buf : List Nat) : Nat × Option Error × List Nat :=
  match buf with
  | [] => (0, some .EOF, [])
  | x :: rest => (x, none, rest)

/-- Library `bytes.Buffer.Read(p)` on a buffer whose unread bytes are `buf`: the slice `p` after the
copy, the count, the error and the unread bytes left.  An empty buffer gives `io.EOF`
unless `len(p) == 0`. -/
def Buffer.Read (buf : List Nat) (p : List Nat) : List Nat × Nat × Option Error × List Nat :=
  match buf with
  | [] => if p.length = 0 then (p, 0, none, buf) else (p, 0, some .EOF, buf)
  | _ :: _ =>
    let n := min p.length buf.length
    (buf.take n ++ p.drop n, n, none, buf.drop n)

/-- Go `(r *Request) Valid() error`: some basic validation of a Request.  The outer `none` is
the index-out-of-range panic of `r.Port[0]` or `r.Port[1]`; `||` and `&&` evaluate their
right operand only when needed. -/
def Request.Valid (r : Request) : Option (Option Error) :=
  if r.Ver ≠ VERSION then some (some .versionNotSupported)
  else if r.Cmd ≠ CONNECT then some (some .commandNotUnderstood)
  else if r.Addr.length = 0 then some (some .missingAddress)
  else if r.Atyp ≠ IPV4 ∧ r.Atyp ≠ DOMAIN then some (some .unsupportedAddressType)
  else if r.Port.length > 2 then some (some .invalidPortNumber)
  else
    match r.Port[0]? with
    | none => none
    | some p0 =>
      if p0 = 0 then
        match r.Port[1]? with
        | none => none
        | some p1 => if p1 = 0 then some (some .invalidPortNumber) else some none
      else some none

/-- The `switch r.Atyp` of `Unmarshal`: the address length and the buffer after the
optional `ReadByte`, or the error the switch returns with. -/
def Unmarshal.addrLen (atyp : Nat) (buf : List Nat) : Except Error (Nat × List Nat) :=
  if atyp = DOMAIN then
    match Buffer.ReadByte buf with
    | (_, some _, _) => .error .missingAddressLength
    | (baddrLen, none, buf) => .ok (baddrLen, buf)
  else if atyp = IPV4 then .ok (4, buf)
  else if atyp = IPV6 then .ok (16, buf)
  else .error .unknownAddressType

/-- Go `Unmarshal(b []byte) (Request, error)`: populates a new Request by reading bytes in the
format specified by the RFC.  The outer `none` is a run-time panic. -/
def Unmarshal (b : List Nat) : Option (Request × Option Error) :=
  let r : Request := ⟨0, 0, 0, [], []⟩
  if b.length < 7 then some (r, some .tooFewBytes)
  else
    match b[0]?, b[1]?, b[3]? with
    | some ver, some cmd, some atyp =>
      let r := { r with Ver := ver, Cmd := cmd, Atyp := atyp }
      let buf := b.drop 4
      match Unmarshal.addrLen r.Atyp buf with
      | .error e => some (r, some e)
      | .ok (addrLen, buf) =>
        let remaining : Int := (buf.length : Int) - 2
        if remaining ≠ (addrLen : Int) then
          some (r, some (.invalidAddressLength addrLen remaining))
        else
          match Buffer.Read buf (List.replicate addrLen 0) with
          | (addr, _, some err, _) => some ({ r with Addr := addr }, some err)
          | (addr, _, none, buf) =>
            let r := { r with Addr := addr }
            match Buffer.Read buf (List.replicate 2 0) with
            | (port, _, some err, _) => some ({ r with Port := port }, some err)
            | (port, _, none, _) =>
              let r := { r with Port := port }
              (r.Valid).map (fun e => (r, e))
    | _, _, _ => none

/-! ## The client stream and the handshake -/

/-- The `io.ReadWriteCloser` of a `SocksConn`, seen from the server.

* `input`: what the client still sends, as the segments in which it arrives; one `Read`
  returns bytes of at most one segment, and `io.EOF` once no segment is left;
* `output`: every byte written to the client so far;
* `writeBudget`: `some k` when only the next `k` calls of `Write` succeed, `none` when every
  call succeeds;
* `closed`: how many times `Close` was called. -/
structure Conn where
  input : List (List Nat)
  output : List Nat
  writeBudget : Option Nat
  closed : Nat
  deriving DecidableEq

/-- Method `Read(p)` of the client stream: the slice `p` after the call, the count, the error and
the stream afterwards.  A read into an empty slice returns `0, nil`. -/
def Conn.Read (c : Conn) (p : List Nat) : List Nat × Nat × Option Error × Conn :=
  if p.length = 0 then (p, 0, none, c)
  else
    match c.input with
    | [] => (p, 0, some .EOF, c)
    | seg :: rest =>
      let n := min p.length seg.length
      (seg.take n ++ p.drop n, n, none,
        { c with input := if seg.length ≤ n then rest else seg.drop n :: rest })

/-- Method `Write(p)` of the client stream: the count, the error and the stream afterwards. -/
def Conn.Write (c : Conn) (p : List Nat) : Nat × Option Error × Conn :=
  match c.writeBudget with
  | some 0 => (0, some .writeError, c)
  | some (k + 1) => (p.length, none, { c with output := c.output ++ p, writeBudget := some k })
  | none => (p.length, none, { c with output := c.output ++ p })

/-- The loop `for b := range buf[:nread]` of `Handshake`, run over the values `b` takes.
`some` is the `return` inside the loop, `none` is the loop running to its end. -/
def SocksConn.Handshake.loop (s : Conn) : List Nat → Option (Option Error × Conn)
  | [] => none
  | b :: bs =>
    if b = 0 then
      match s.Write [VERSION, 0] with
      | (_, some err, s) => some (some err, s)
      | (_, none, s) => some (none, s)
    else SocksConn.Handshake.loop s bs

/-- Go `(s *SocksConn) Handshake() error`, on the `io.ReadWriteCloser` embedded in the
`SocksConn` (the `Dialer` is not used).  The result of the first `Read` is dropped by the
source.  A `range` clause with one variable over a slice yields the indices of the slice,
so `b` runs over `0, 1, ..., nread-1`.  The outer `none` is a run-time panic. -/
def SocksConn.Handshake (s : Conn) : Option (Option Error × Conn) :=
  match s.Read (List.replicate 2 0) with
  | (buf, _, _, s) =>
    match buf[0]?, buf[1]? with
    | some ver, some nmethods =>
      if ver ≠ VERSION then some (some .invalidSocksVersion, s)
      else if nmethods > 255 then some (some .tooManyMethods, s)
      else
        match s.Read (List.replicate nmethods 0) with
        | (_, _, some err, s) => some (some err, s)
        | (buf, nread, none, s) =>
          match SocksConn.Handshake.loop s (List.range (buf.take nread).length) with
          | some res => some res
          | none => some (some .noSuitableMethod, s)
    | _, _ => none


/-! ## Replies -/

/-- Library `net.IP.To4`: a 4-byte address is returned as it is, a 16-byte address that is
an IPv4-mapped one gives its last 4 bytes, anything else gives nil. -/
def IP.To4 (ip : List Nat) : List Nat :=
  if ip.length = 4 then ip
  else if ip.length = 16 ∧ ip.take 10 = List.replicate 10 0 ∧ ip[10]? = some 255 ∧
      ip[11]? = some 255 then ip.drop 12
  else []

/-- Library `net.IP.To16`: a 4-byte address gives its 16-byte IPv4-mapped form, a 16-byte
address is returned as it is, anything else gives nil. -/
def IP.To16 (ip : List Nat) : List Nat :=
  if ip.length = 4 then [0, 0, 0, 0, 0, 0, 0, 0, 0, 0, 255, 255] ++ ip
  else if ip.length = 16 then ip
  else []

/-- Go `NewReply(status byte, ip net.IP, port uint16) *Request`: a new Request suitable for a
reply to a previous Request from the client.  The source sets `Cmd: 0x0` and does not read
`status`. -/
def NewReply (status : Nat) (ip : List Nat) (port : Nat) : Request :=
  let aType := if ip.length = 4 then IPV4 else IPV6
  let addr := if ip.length = 4 then IP.To4 ip else IP.To16 ip
  { Ver := VERSION, Cmd := 0, Atyp := aType, Addr := addr, Port := IntToBytes port }

/-- Go `(r *Request) WriteTo(w io.Writer) (int64, error)`: `Marshal` and `Write` the result
to the writer. The count, the error and the writer afterwards. -/
def Request.WriteTo (r : Request) (w : Conn) : Nat × Option Error × Conn :=
  w.Write (Marshal r).1

/-! ## The session -/

/-- Method `Close()` of a stream; its error result is dropped at every call in the source. -/
def Conn.Close (c : Conn) : Conn :=
  { c with closed := c.closed + 1 }

/-- Go `(s *SocksConn) FailHandshake()`: the result of the `Write` is dropped. -/
def SocksConn.FailHandshake (s : Conn) : Conn :=
  (s.Write [VERSION, 255]).2.2

/-- Go `(s *SocksConn) FailRequest()`: a generic request failure reply; the result of the
`Write` is dropped. -/
def SocksConn.FailRequest (s : Conn) : Conn :=
  (s.Write (Marshal ⟨VERSION, 1, 0, [0], [0, 0]⟩).1).2.2

/-- The loop of `io.ReadAtLeast`: `for n < min && err == nil { nn, err = r.Read(buf[n:]);
n += nn }`, run for at most `fuel` rounds; `none` when the rounds do not suffice. -/
def ReadAtLeast.loop (min : Nat) :
    Nat → Conn → List Nat → Nat → Option Error → Option (List Nat × Nat × Option Error × Conn)
  | 0, r, buf, n, err => if n < min ∧ err = none then none else some (buf, n, err, r)
  | fuel + 1, r, buf, n, err =>
    if n < min ∧ err = none then
      match r.Read (buf.drop n) with
      | (p, nn, err, r) => ReadAtLeast.loop min fuel r (buf.take n ++ p) (n + nn) err
    else some (buf, n, err, r)

/-- Library `io.ReadAtLeast(r, buf, min)`: the slice `buf` after the call, the count, the
error and the stream afterwards.  Every round of the loop either ends it, or uses up a
segment of the input, or adds at least one byte to `n`, so `len(input) + min + 1` rounds
suffice. -/
def ReadAtLeast (r : Conn) (buf : List Nat) (min : Nat) :
    Option (List Nat × Nat × Option Error × Conn) :=
  if buf.length < min then some (buf, 0, some .shortBuffer, r)
  else
    match ReadAtLeast.loop min (r.input.length + min + 1) r buf 0 none with
    | none => none
    | some (buf, n, err, r) =>
      if n ≥ min then some (buf, n, none, r)
      else if n > 0 ∧ err = some .EOF then some (buf, n, some .unexpectedEOF, r)
      else some (buf, n, err, r)

/-- Interface `Dialer`, `Dial([]byte, AddrType, []byte) error`: from the three arguments and
the client stream as it is at the call, the error, the client stream after the call and the
outbound stream the call has opened, if any. -/
abbrev Dialer := List Nat → Nat → List Nat → Conn → Option Error × Conn × Option Conn

/-- One connection being served: the client stream, the arguments of every call of `Dial`
made so far, and the outbound streams those calls have opened. -/
structure Session where
  client : Conn
  dials : List (List Nat × Nat × List Nat)
  outbound : List Conn
  deriving DecidableEq

/-- Go `(s *SocksConn) HandleRequest() error`: reads the request and issues the requested
command, with `d` the `Dialer` of the `SocksConn`.  The outer `none` is a run-time panic. -/
def SocksConn.HandleRequest (d : Dialer) (s : Session) : Option (Option Error × Session) :=
  match ReadAtLeast s.client (List.replicate 261 0) 4 with
  | none => none
  | some (_, _, some err, c) => some (some err, { s with client := c })
  | some (buf, nread, none, c) =>
    let buf := buf.take nread
    match Unmarshal buf with
    | none => none
    | some (_, some err) => some (some err, { s with client := c })
    | some (r, none) =>
      if r.Cmd = CONNECT then
        match d r.Addr r.Atyp r.Port c with
        | (err, c, out) =>
          some (err, ⟨c, s.dials ++ [(r.Addr, r.Atyp, r.Port)], s.outbound ++ out.toList⟩)
      else some (none, { s with client := c })

/-- What `net.DialTimeout` and the two concurrent `io.Copy` calls of the default dialer do;
both depend on the network and on timing, so they are given from outside.

* `DialTimeout aTyp addr port`: the result of `net.DialTimeout("tcp", dialstring, 30s)`,
  where the dial string is built from `aTyp`, `addr` and the port number: an error, or the
  outbound stream with the IP and the port of its local address;
* `copies client conn`: the input left, the output and the write budget of the client
  stream and of the outbound stream once `io.Copy(d.client, conn)` and
  `io.Copy(conn, d.client)` have both returned. `io.Copy` calls `Read` and `Write` only. -/
structure Net where
  DialTimeout : Nat → List Nat → Nat → Except Error (Conn × List Nat × Nat)
  copies : Conn → Conn → Conn × Conn

/-- Go `(d defaultDialer) Dial(addr, aTyp, port) error`, with `d.client` the client stream.
On the path of a failed reply write the source returns without a call of `conn.Close()`.
After the two copies `d.client.Close()` (in the goroutine) and `conn.Close()` are each
called once. -/
def defaultDialer.Dial (env : Net) : Dialer := fun addr aTyp port client =>
  match env.DialTimeout aTyp addr (BytesToInt port) with
  | .error err => (some err, client, none)
  | .ok (conn, ip, lport) =>
    match (NewReply 0 ip (lport % 65536)).WriteTo client with
    | (_, some err, client) => (some err, client, some conn)
    | (_, none, client) =>
      let after := env.copies client conn
      let client := { after.1 with closed := client.closed }
      let conn := { after.2 with closed := conn.closed }
      (none, client.Close, some conn.Close)

/-- Go `Serve(c io.ReadWriteCloser, d Dialer) error`: Handshake and HandleRequest for an
established connection; `d = none` is the nil Dialer, replaced by `defaultDialer{c}`.  The
deferred `c.Close()` runs last.  The outer `none` is a run-time panic. -/
def Serve (env : Net) (c : Conn) (d : Option Dialer) : Option (Option Error × Session) :=
  let d := d.getD (defaultDialer.Dial env)
  let res :=
    match SocksConn.Handshake c with
    | none => none
    | some (some err, c) => some (some err, (⟨SocksConn.FailHandshake c, [], []⟩ : Session))
    | some (none, c) =>
      match SocksConn.HandleRequest d ⟨c, [], []⟩ with
      | none => none
      | some (some err, s) => some (some err, { s with client := SocksConn.FailRequest s.client })
      | some (none, s) => some (none, s)
  res.map (fun r => (r.1, { r.2 with client := r.2.client.Close }))


/-! ## Environments for the examples -/

/-- A `Dialer` that refuses every call: it returns an error and leaves the client stream as
it is. -/
def refusingDialer : Dialer :=
  fun _ _ _ c => (some .dialError, c, none)

/-- A network on which every `net.DialTimeout` fails. -/
def refusingNet : Net :=
  ⟨fun _ _ _ => .error .dialError, fun c o => (c, o)⟩

/-- A network on which every `net.DialTimeout` succeeds, with the local address
10.0.0.1:4242; the remote end sends the two bytes 48 69, which the relay copies to the
client, and both inputs are read to their end. -/
def exampleNet : Net :=
  ⟨fun _ _ _ => .ok (⟨[[72, 105]], [], none, 0⟩, [10, 0, 0, 1], 4242),
   fun c o => ({ c with input := [], output := c.output ++ [72, 105] }, { o with input := [] })⟩

/-- On a two-byte port `Valid` never panics; its five checks run in source order. -/
theorem Valid_two (v c t p1 p2 : Nat) (addr : List Nat) :
    Request.Valid ⟨v, c, t, addr, [p1, p2]⟩ =
      some (if v ≠ VERSION then some .versionNotSupported
        else if c ≠ CONNECT then some .commandNotUnderstood
        else if addr.length = 0 then some .missingAddress
        else if t ≠ IPV4 ∧ t ≠ DOMAIN then some .unsupportedAddressType
        else if p1 = 0 ∧ p2 = 0 then some .invalidPortNumber
        else none) := by
  simp only [Request.Valid]
  split_ifs <;> simp_all

/-- Reading `len(addr)` bytes from a buffer that holds `addr` and then more. -/
theorem Buffer.Read_append (addr rest : List Nat) (h : rest ≠ []) :
    Buffer.Read (addr ++ rest) (List.replicate addr.length 0) =
      (addr, addr.length, none, rest) := by
  cases hadd : addr ++ rest with
  | nil => simp_all
  | cons x xs =>
    simp only [Buffer.Read]
    rw [← hadd]
    simp

/-- A list of two elements, taken apart. -/
theorem exists_pair (port : List Nat) (h : port.length = 2) : ∃ p1 p2, port = [p1, p2] := by
  match port, h with
  | [p1, p2], _ => exact ⟨p1, p2, rfl⟩

/-- A buffer of at least seven bytes starts with the four header bytes. -/
theorem exists_cons4 (b : List Nat) (h : 7 ≤ b.length) :
    ∃ v c rsv t rest, b = v :: c :: rsv :: t :: rest ∧ 3 ≤ rest.length := by
  match b, h with
  | v :: c :: rsv :: t :: rest, h =>
    refine ⟨v, c, rsv, t, rest, rfl, ?_⟩
    simp only [List.length_cons] at h
    omega

/-- With fewer than seven bytes `Unmarshal` returns the zero request and an error. -/
theorem Unmarshal_short (b : List Nat) (h : b.length < 7) :
    Unmarshal b = some (⟨0, 0, 0, [], []⟩, some .tooFewBytes) := by
  simp [Unmarshal, h]

/-- The body of `Unmarshal` once the length check and the three header reads are done. -/
theorem Unmarshal_cons (v c rsv t : Nat) (rest : List Nat) (h : 3 ≤ rest.length) :
    Unmarshal (v :: c :: rsv :: t :: rest) =
      match Unmarshal.addrLen t rest with
      | .error e => some (⟨v, c, t, [], []⟩, some e)
      | .ok (addrLen, buf) =>
        if (buf.length : Int) - 2 ≠ (addrLen : Int) then
          some (⟨v, c, t, [], []⟩, some (.invalidAddressLength addrLen ((buf.length : Int) - 2)))
        else
          match Buffer.Read buf (List.replicate addrLen 0) with
          | (addr, _, some err, _) => some (⟨v, c, t, addr, []⟩, some err)
          | (addr, _, none, buf) =>
            match Buffer.Read buf (List.replicate 2 0) with
            | (port, _, some err, _) => some (⟨v, c, t, addr, port⟩, some err)
            | (port, _, none, _) =>
              (Request.Valid ⟨v, c, t, addr, port⟩).map (fun e => (⟨v, c, t, addr, port⟩, e)) := by
  have hlen : ¬ (v :: c :: rsv :: t :: rest).length < 7 := by
    simp only [List.length_cons]; omega
  have h0 : (v :: c :: rsv :: t :: rest)[0]? = some v := rfl
  have h1 : (v :: c :: rsv :: t :: rest)[1]? = some c := rfl
  have h3 : (v :: c :: rsv :: t :: rest)[3]? = some t := by simp
  simp only [Unmarshal, hlen, if_false, h0, h1, h3]
  rfl

/-- On a frame (header, length byte of a DOMAIN address, address, two port bytes)
`Unmarshal` passes its framing checks and returns the decoded request with the verdict of
`Valid`. -/
theorem Unmarshal_framed (v c rsv t : Nat) (pre addr port : List Nat)
    (hport : port.length = 2)
    (h : (t = DOMAIN ∧ pre = [addr.length]) ∨ (t = IPV4 ∧ pre = [] ∧ addr.length = 4) ∨
      (t = IPV6 ∧ pre = [] ∧ addr.length = 16)) :
    Unmarshal ([v, c, rsv, t] ++ pre ++ addr ++ port) =
      (Request.Valid ⟨v, c, t, addr, port⟩).map (fun e => (⟨v, c, t, addr, port⟩, e)) := by
  obtain ⟨p1, p2, rfl⟩ := exists_pair port hport
  have hrd := Buffer.Read_append addr [p1, p2] (by simp)
  have hshape : [v, c, rsv, t] ++ pre ++ addr ++ [p1, p2] =
      v :: c :: rsv :: t :: (pre ++ (addr ++ [p1, p2])) := by simp
  have hrest : 3 ≤ (pre ++ (addr ++ [p1, p2])).length := by
    rcases h with ⟨_, rfl⟩ | ⟨_, rfl, h4⟩ | ⟨_, rfl, h16⟩ <;> simp <;> omega
  rw [hshape, Unmarshal_cons _ _ _ _ _ hrest]
  rcases h with ⟨rfl, rfl⟩ | ⟨rfl, rfl, h4⟩ | ⟨rfl, rfl, h16⟩
  · simp only [Unmarshal.addrLen, Buffer.ReadByte, List.singleton_append, if_true]
    have : ¬ (((addr ++ [p1, p2]).length : Int) - 2 ≠ (addr.length : Int)) := by
      simp
    simp only [this, if_false, hrd]
    rfl
  · have e1 : Unmarshal.addrLen IPV4 ([] ++ (addr ++ [p1, p2])) = .ok (4, addr ++ [p1, p2]) := rfl
    simp only [e1]
    have : ¬ (((addr ++ [p1, p2]).length : Int) - 2 ≠ ((4 : Nat) : Int)) := by
      simp [h4]
    simp only [this, if_false]
    rw [← h4, hrd]
    rfl
  · have e1 : Unmarshal.addrLen IPV6 ([] ++ (addr ++ [p1, p2])) = .ok (16, addr ++ [p1, p2]) := rfl
    simp only [e1]
    have : ¬ (((addr ++ [p1, p2]).length : Int) - 2 ≠ ((16 : Nat) : Int)) := by
      simp [h16]
    simp only [this, if_false]
    rw [← h16, hrd]
    rfl

/-- An address type other than 1, 3 and 4 ends `Unmarshal` in the `default` branch. -/
theorem Unmarshal_unknown (v c rsv t : Nat) (rest : List Nat) (h : 3 ≤ rest.length)
    (ht : t ≠ IPV4 ∧ t ≠ DOMAIN ∧ t ≠ IPV6) :
    Unmarshal (v :: c :: rsv :: t :: rest) = some (⟨v, c, t, [], []⟩, some .unknownAddressType) := by
  rw [Unmarshal_cons _ _ _ _ _ h]
  simp [Unmarshal.addrLen, ht.1, ht.2.1, ht.2.2]

/-- An IPv4 or IPv6 frame whose byte count does not fit the fixed address length. -/
theorem Unmarshal_fixed_mismatch (v c rsv t n : Nat) (rest : List Nat) (h : 3 ≤ rest.length)
    (ht : (t = IPV4 ∧ n = 4) ∨ (t = IPV6 ∧ n = 16)) (hn : (rest.length : Int) - 2 ≠ (n : Int)) :
    Unmarshal (v :: c :: rsv :: t :: rest) =
      some (⟨v, c, t, [], []⟩, some (.invalidAddressLength n ((rest.length : Int) - 2))) := by
  rw [Unmarshal_cons _ _ _ _ _ h]
  rcases ht with ⟨rfl, rfl⟩ | ⟨rfl, rfl⟩
  · have e1 : Unmarshal.addrLen IPV4 rest = .ok (4, rest) := rfl
    simp only [e1]
    rw [if_pos hn]
  · have e1 : Unmarshal.addrLen IPV6 rest = .ok (16, rest) := rfl
    simp only [e1]
    rw [if_pos hn]

/-- A DOMAIN frame whose byte count does not fit its length byte. -/
theorem Unmarshal_domain_mismatch (v c rsv L : Nat) (rest : List Nat) (h : 2 ≤ rest.length)
    (hn : (rest.length : Int) - 2 ≠ (L : Int)) :
    Unmarshal (v :: c :: rsv :: DOMAIN :: L :: rest) =
      some (⟨v, c, DOMAIN, [], []⟩, some (.invalidAddressLength L ((rest.length : Int) - 2))) := by
  rw [Unmarshal_cons _ _ _ _ _ (by simp only [List.length_cons]; omega)]
  have e1 : Unmarshal.addrLen DOMAIN (L :: rest) = .ok (L, rest) := rfl
  simp only [e1]
  rw [if_pos hn]

/-- Every buffer is either rejected by the framing checks of `Unmarshal` or is a frame:
a four-byte header, the length byte of a DOMAIN address, the address and two port bytes. -/
theorem Unmarshal_cases (b : List Nat) :
    (∃ r e, Unmarshal b = some (r, some e) ∧ e.isFraming = true) ∨
    (∃ v c rsv t pre addr port, port.length = 2 ∧
      ((t = DOMAIN ∧ pre = [addr.length]) ∨ (t = IPV4 ∧ pre = [] ∧ addr.length = 4) ∨
        (t = IPV6 ∧ pre = [] ∧ addr.length = 16)) ∧
      b = [v, c, rsv, t] ++ pre ++ addr ++ port) := by
  by_cases hlen : b.length < 7
  · exact Or.inl ⟨_, _, Unmarshal_short b hlen, rfl⟩
  obtain ⟨v, c, rsv, t, rest, rfl, hrest⟩ := exists_cons4 b (by omega)
  by_cases h3 : t = DOMAIN
  · subst h3
    match rest, hrest with
    | L :: rest, hrest =>
      simp only [List.length_cons] at hrest
      by_cases hn : (rest.length : Int) - 2 ≠ (L : Int)
      · exact Or.inl ⟨_, _, Unmarshal_domain_mismatch v c rsv L rest (by omega) hn, rfl⟩
      · refine Or.inr ⟨v, c, rsv, DOMAIN, [L], rest.take L, rest.drop L, ?_, Or.inl ⟨rfl, ?_⟩, ?_⟩
        · simp only [List.length_drop]; omega
        · simp only [List.length_take]; congr 1; omega
        · simp [List.take_append_drop]
  by_cases h1 : t = IPV4
  · subst h1
    by_cases hn : (rest.length : Int) - 2 ≠ ((4 : Nat) : Int)
    · exact Or.inl ⟨_, _,
        Unmarshal_fixed_mismatch v c rsv IPV4 4 rest hrest (Or.inl ⟨rfl, rfl⟩) hn, rfl⟩
    · refine Or.inr ⟨v, c, rsv, IPV4, [], rest.take 4, rest.drop 4, ?_,
        Or.inr (Or.inl ⟨rfl, rfl, ?_⟩), ?_⟩
      · simp only [List.length_drop]; omega
      · simp only [List.length_take]; omega
      · simp [List.take_append_drop]
  by_cases h4 : t = IPV6
  · subst h4
    by_cases hn : (rest.length : Int) - 2 ≠ ((16 : Nat) : Int)
    · exact Or.inl ⟨_, _,
        Unmarshal_fixed_mismatch v c rsv IPV6 16 rest hrest (Or.inr ⟨rfl, rfl⟩) hn, rfl⟩
    · refine Or.inr ⟨v, c, rsv, IPV6, [], rest.take 16, rest.drop 16, ?_,
        Or.inr (Or.inr ⟨rfl, rfl, ?_⟩), ?_⟩
      · simp only [List.length_drop]; omega
      · simp only [List.length_take]; omega
      · simp [List.take_append_drop]
  · exact Or.inl ⟨_, _, Unmarshal_unknown v c rsv t rest hrest ⟨h1, h3, h4⟩, rfl⟩

/-- A frame followed by at least one more byte fails the length check of `Unmarshal`. -/
theorem Unmarshal_trailing (v c rsv t : Nat) (pre addr port tail : List Nat)
    (hport : port.length = 2)
    (hshape : (t = DOMAIN ∧ pre = [addr.length]) ∨ (t = IPV4 ∧ pre = [] ∧ addr.length = 4) ∨
      (t = IPV6 ∧ pre = [] ∧ addr.length = 16))
    (htail : tail ≠ []) :
    ∃ r e, Unmarshal ([v, c, rsv, t] ++ pre ++ addr ++ port ++ tail) = some (r, some e) ∧
      e.isFraming = true := by
  have hpos : 0 < tail.length := List.length_pos.mpr htail
  rcases hshape with ⟨rfl, rfl⟩ | ⟨rfl, rfl, h4⟩ | ⟨rfl, rfl, h16⟩
  · have e : [v, c, rsv, DOMAIN] ++ [addr.length] ++ addr ++ port ++ tail =
        v :: c :: rsv :: DOMAIN :: addr.length :: (addr ++ port ++ tail) := by simp
    rw [e]
    exact ⟨_, _, Unmarshal_domain_mismatch v c rsv addr.length (addr ++ port ++ tail)
      (by simp only [List.length_append]; omega)
      (by simp only [List.length_append]; push_cast; omega), rfl⟩
  · have e : [v, c, rsv, IPV4] ++ [] ++ addr ++ port ++ tail =
        v :: c :: rsv :: IPV4 :: (addr ++ port ++ tail) := by simp
    rw [e]
    exact ⟨_, _, Unmarshal_fixed_mismatch v c rsv IPV4 4 (addr ++ port ++ tail)
      (by simp only [List.length_append]; omega) (Or.inl ⟨rfl, rfl⟩)
      (by simp only [List.length_append]; push_cast; omega), rfl⟩
  · have e : [v, c, rsv, IPV6] ++ [] ++ addr ++ port ++ tail =
        v :: c :: rsv :: IPV6 :: (addr ++ port ++ tail) := by simp
    rw [e]
    exact ⟨_, _, Unmarshal_fixed_mismatch v c rsv IPV6 16 (addr ++ port ++ tail)
      (by simp only [List.length_append]; omega) (Or.inr ⟨rfl, rfl⟩)
      (by simp only [List.length_append]; push_cast; omega), rfl⟩

/-- Unless the port has one byte, `Marshal` leaves the request as it is and emits the
header, the length byte of a DOMAIN address, the address and the port. -/
theorem Marshal_of_port_ne_one (r : Request) (h : r.Port.length ≠ 1) :
    Marshal r = ([r.Ver, r.Cmd, 0, r.Atyp] ++
      (if r.Atyp = DOMAIN then [r.Addr.length % 256] else []) ++ r.Addr ++ r.Port, r) := by
  simp only [Marshal, h, if_false]
  split_ifs <;> simp

/-- On two bytes `BytesToInt` is the big-endian value. -/
theorem BytesToInt_two (x y : Nat) (hx : x < 256) (hy : y < 256) :
    BytesToInt [x, y] = x * 256 + y := by
  have h : 2 ^ 8 * x + y = 2 ^ 8 * x ||| y := Nat.mul_add_lt_is_or (by omega) x
  simp only [BytesToInt]
  rw [Nat.mod_eq_of_lt (by omega : y < 65536), Nat.mod_eq_of_lt (by omega : x < 65536),
    Nat.shiftLeft_eq, Nat.or_comm, Nat.mul_comm, ← h]
  norm_num
  omega

/-! ## Lemmas on the client stream -/

/-- A `Write` on a stream that still accepts writes appends the bytes to the output. -/
theorem Conn.Write_ok (c : Conn) (p : List Nat) (h : c.writeBudget ≠ some 0) :
    ∃ c', c.Write p = (p.length, none, c') ∧ c'.output = c.output ++ p ∧ c'.input = c.input := by
  obtain ⟨i, o, w, cl⟩ := c
  match w, h with
  | none, _ => exact ⟨_, rfl, rfl, rfl⟩
  | some (k + 1), _ => exact ⟨_, rfl, rfl, rfl⟩

/-! ## Claims C1 to C10 -/

/-- C1 (round trip). For every Request `r` with `Ver = 5`, `Cmd = CONNECT`, an IPV4 address
of 4 bytes or a DOMAIN address of 1 to 255 bytes, and a port of exactly 2 bytes that are not
both zero, `Unmarshal(Marshal(r))` returns a nil error and a Request equal to `r` in all five
fields; `Marshal` leaves such an `r` as it is. -/
theorem Unmarshal_Marshal_roundtrip (r : Request)
    (hver : r.Ver = 5) (hcmd : r.Cmd = CONNECT)
    (haddr : (r.Atyp = IPV4 ∧ r.Addr.length = 4) ∨
      (r.Atyp = DOMAIN ∧ 1 ≤ r.Addr.length ∧ r.Addr.length ≤ 255))
    (hport : r.Port.length = 2) (hnz : r.Port ≠ [0, 0]) :
    Unmarshal (Marshal r).1 = some (r, none) ∧ (Marshal r).2 = r := by
  obtain ⟨v, c, t, addr, port⟩ := r
  simp only at hver hcmd haddr hport hnz
  subst hver hcmd
  obtain ⟨p1, p2, rfl⟩ := exists_pair port hport
  have hp : ¬ (p1 = 0 ∧ p2 = 0) := by
    rintro ⟨rfl, rfl⟩; exact hnz rfl
  rw [Marshal_of_port_ne_one _ (by simp)]
  refine ⟨?_, rfl⟩
  simp only
  rcases haddr with ⟨rfl, h4⟩ | ⟨rfl, h1, h255⟩
  · rw [if_neg (by decide),
      Unmarshal_framed 5 CONNECT 0 IPV4 [] addr [p1, p2] rfl (Or.inr (Or.inl ⟨rfl, rfl, h4⟩)),
      Valid_two]
    have ha : ¬ addr.length = 0 := by omega
    simp [ha, hp]
  · rw [if_pos rfl, Nat.mod_eq_of_lt (by omega),
      Unmarshal_framed 5 CONNECT 0 DOMAIN [addr.length] addr [p1, p2] rfl (Or.inl ⟨rfl, rfl⟩),
      Valid_two]
    have ha : ¬ addr.length = 0 := by omega
    simp [ha, hp]

/-- C1 at the request for "google.se", port 80. -/
theorem Unmarshal_Marshal_roundtrip_witness :
    Unmarshal
        (Marshal ⟨5, CONNECT, DOMAIN, [103, 111, 111, 103, 108, 101, 46, 115, 101], [0, 80]⟩).1 =
      some (⟨5, CONNECT, DOMAIN, [103, 111, 111, 103, 108, 101, 46, 115, 101], [0, 80]⟩, none) ∧
    (Marshal ⟨5, CONNECT, DOMAIN, [103, 111, 111, 103, 108, 101, 46, 115, 101], [0, 80]⟩).2 =
      ⟨5, CONNECT, DOMAIN, [103, 111, 111, 103, 108, 101, 46, 115, 101], [0, 80]⟩ :=
  Unmarshal_Marshal_roundtrip
    ⟨5, CONNECT, DOMAIN, [103, 111, 111, 103, 108, 101, 46, 115, 101], [0, 80]⟩
    rfl rfl (Or.inr ⟨rfl, by decide, by decide⟩) rfl (by decide)

/-- C2, as stated, fails: the buffer 05 01 07 01 08 08 08 08 00 50 (reserved byte 7) is
decoded without error, and `Marshal` of the decoded Request has 00 as its third byte, so it
differs from the buffer. -/
theorem Marshal_Unmarshal_reserved_counterexample :
    (∀ x ∈ [5, 1, 7, 1, 8, 8, 8, 8, 0, 80], x < 256) ∧
    Unmarshal [5, 1, 7, 1, 8, 8, 8, 8, 0, 80] =
      some (⟨5, CONNECT, IPV4, [8, 8, 8, 8], [0, 80]⟩, none) ∧
    (Marshal ⟨5, CONNECT, IPV4, [8, 8, 8, 8], [0, 80]⟩).1 = [5, 1, 0, 1, 8, 8, 8, 8, 0, 80] ∧
    (Marshal ⟨5, CONNECT, IPV4, [8, 8, 8, 8], [0, 80]⟩).1 ≠ [5, 1, 7, 1, 8, 8, 8, 8, 0, 80] := by
  decide

/-- C2, amended. For every byte buffer `b` on which `Unmarshal(b)` succeeds with Request
`r`, `Marshal(r)` equals `b` with the reserved byte `b[2]` set to 0x00; so `Marshal(r)`
equals `b` byte for byte whenever the reserved byte of `b` is 0x00. -/
theorem Marshal_Unmarshal_reencode (b : List Nat) (r : Request)
    (hb : ∀ x ∈ b, x < 256) (h : Unmarshal b = some (r, none)) :
    (Marshal r).1 = b.set 2 0 ∧ (b[2]? = some 0 → (Marshal r).1 = b) := by
  rcases Unmarshal_cases b with
    ⟨r', e, hr, -⟩ | ⟨v, c, rsv, t, pre, addr, port, hport, hshape, rfl⟩
  · rw [hr] at h; simp at h
  · rw [Unmarshal_framed v c rsv t pre addr port hport hshape] at h
    obtain ⟨p1, p2, rfl⟩ := exists_pair port hport
    rw [Valid_two] at h
    simp only [Option.map_some', Option.some.injEq, Prod.mk.injEq] at h
    obtain ⟨rfl, -⟩ := h
    have hset : ([v, c, rsv, t] ++ pre ++ addr ++ [p1, p2]).set 2 0 =
        [v, c, 0, t] ++ pre ++ addr ++ [p1, p2] := by simp
    have hmar : (Marshal ⟨v, c, t, addr, [p1, p2]⟩).1 =
        [v, c, 0, t] ++ pre ++ addr ++ [p1, p2] := by
      rw [Marshal_of_port_ne_one _ (by simp)]
      simp only
      rcases hshape with ⟨rfl, rfl⟩ | ⟨rfl, rfl, -⟩ | ⟨rfl, rfl, -⟩
      · have hL : addr.length < 256 := hb _ (by simp)
        rw [if_pos rfl, Nat.mod_eq_of_lt hL]
      · rw [if_neg (by decide)]
      · rw [if_neg (by decide)]
    refine ⟨by rw [hmar, hset], fun h2 => ?_⟩
    have h0 : rsv = 0 := by simpa using h2
    rw [hmar, h0]

/-- C2, amended, at the buffer 05 01 00 03 09 "google.se" 00 50 of the test. -/
theorem Marshal_Unmarshal_reencode_witness :
    (Marshal ⟨5, CONNECT, DOMAIN, [103, 111, 111, 103, 108, 101, 46, 115, 101], [0, 80]⟩).1 =
      [5, 1, 0, 3, 9, 103, 111, 111, 103, 108, 101, 46, 115, 101, 0, 80] :=
  (Marshal_Unmarshal_reencode [5, 1, 0, 3, 9, 103, 111, 111, 103, 108, 101, 46, 115, 101, 0, 80]
    ⟨5, CONNECT, DOMAIN, [103, 111, 111, 103, 108, 101, 46, 115, 101], [0, 80]⟩
    (by decide) (by decide)).2 (by decide)

/-- C4 (handshake rejection) does not hold of the code. On the client input 05 01 02 (one
method, 0x02) and on 05 02 01 02 (methods 0x01 and 0x02), where no offered method is 0x00,
`Handshake` returns a nil error and writes 05 00: its loop compares the index of each
method, not the method, with 0. -/
theorem Handshake_accepts_without_method_zero :
    SocksConn.Handshake ⟨[[5, 1, 2]], [], none, 0⟩ = some (none, ⟨[], [5, 0], none, 0⟩) ∧
    SocksConn.Handshake ⟨[[5, 2, 1, 2]], [], none, 0⟩ = some (none, ⟨[], [5, 0], none, 0⟩) := by
  decide

/-- C5 (decoding of well-formed frames). For every buffer 05 01 RSV 01 a1 a2 a3 a4 p1 p2,
and for every buffer 05 01 RSV 03 L d1..dL p1 p2 with `L ≥ 1`, where (p1, p2) is not (0, 0),
`Unmarshal` returns a nil error and the Request with `Ver = 5`, `Cmd = CONNECT`, `Atyp` the
fourth byte, `Addr` the 4 or L address bytes without the length byte, and `Port = [p1, p2]`. -/
theorem Unmarshal_wellformed (rsv a1 a2 a3 a4 p1 p2 : Nat) (ds : List Nat)
    (hL : 1 ≤ ds.length) (hport : ¬ (p1 = 0 ∧ p2 = 0)) :
    Unmarshal [5, 1, rsv, 1, a1, a2, a3, a4, p1, p2] =
      some (⟨5, CONNECT, IPV4, [a1, a2, a3, a4], [p1, p2]⟩, none) ∧
    Unmarshal ([5, 1, rsv, 3, ds.length] ++ ds ++ [p1, p2]) =
      some (⟨5, CONNECT, DOMAIN, ds, [p1, p2]⟩, none) := by
  constructor
  · have h := Unmarshal_framed 5 1 rsv IPV4 [] [a1, a2, a3, a4] [p1, p2] rfl
      (Or.inr (Or.inl ⟨rfl, rfl, rfl⟩))
    rw [Valid_two] at h
    simpa [hport] using h
  · have h := Unmarshal_framed 5 1 rsv DOMAIN [ds.length] ds [p1, p2] rfl (Or.inl ⟨rfl, rfl⟩)
    rw [Valid_two] at h
    have hne : ¬ ds.length = 0 := by omega
    have hne' : ds ≠ [] := fun h0 => hne (by simp [h0])
    simpa [hport, hne'] using h

/-- C5 at the two frames of the tests: address 8.8.8.8 with port bytes 00 80, and address
"google.se" with port 80. -/
theorem Unmarshal_wellformed_witness :
    Unmarshal [5, 1, 0, 1, 8, 8, 8, 8, 0, 128] =
      some (⟨5, CONNECT, IPV4, [8, 8, 8, 8], [0, 128]⟩, none) ∧
    Unmarshal ([5, 1, 0, 3, [103, 111, 111, 103, 108, 101, 46, 115, 101].length] ++
        [103, 111, 111, 103, 108, 101, 46, 115, 101] ++ [0, 80]) =
      some (⟨5, CONNECT, DOMAIN, [103, 111, 111, 103, 108, 101, 46, 115, 101], [0, 80]⟩, none) :=
  ⟨(Unmarshal_wellformed 0 8 8 8 8 0 128 [103, 111, 111, 103, 108, 101, 46, 115, 101]
      (by decide) (by decide)).1,
   (Unmarshal_wellformed 0 8 8 8 8 0 80 [103, 111, 111, 103, 108, 101, 46, 115, 101]
      (by decide) (by decide)).2⟩

/-- C6 (framing rejection). For every byte buffer `b`, `Unmarshal(b)` returns an error (one
of its framing errors) whenever `b` has fewer than 7 bytes, or `b[3]` is none of 1, 3, 4, or
the declared address length (4 for IPv4, 16 for IPv6, `b[4]` for DOMAIN) differs from the
number of bytes after the header (and the length byte) minus 2. In particular every frame
followed by one or more trailing bytes is rejected. -/
theorem Unmarshal_framing_rejection :
    (∀ b : List Nat,
      (b.length < 7 ∨
        (∃ t, b[3]? = some t ∧ t ≠ IPV4 ∧ t ≠ DOMAIN ∧ t ≠ IPV6) ∨
        (b[3]? = some IPV4 ∧ (b.length : Int) - 4 - 2 ≠ 4) ∨
        (b[3]? = some IPV6 ∧ (b.length : Int) - 4 - 2 ≠ 16) ∨
        (∃ L : Nat, b[3]? = some DOMAIN ∧ b[4]? = some L ∧
          (b.length : Int) - 4 - 1 - 2 ≠ (L : Int))) →
      ∃ r e, Unmarshal b = some (r, some e) ∧ e.isFraming = true) ∧
    (∀ (v c rsv t : Nat) (pre addr port tail : List Nat),
      port.length = 2 →
      ((t = DOMAIN ∧ pre = [addr.length]) ∨ (t = IPV4 ∧ pre = [] ∧ addr.length = 4) ∨
        (t = IPV6 ∧ pre = [] ∧ addr.length = 16)) →
      tail ≠ [] →
      ∃ r e, Unmarshal ([v, c, rsv, t] ++ pre ++ addr ++ port ++ tail) = some (r, some e) ∧
        e.isFraming = true) := by
  refine ⟨fun b h => ?_, Unmarshal_trailing⟩
  by_cases hlen : b.length < 7
  · exact ⟨_, _, Unmarshal_short b hlen, rfl⟩
  obtain ⟨v, c, rsv, t, rest, rfl, hrest⟩ := exists_cons4 b (by omega)
  have h3 : (v :: c :: rsv :: t :: rest)[3]? = some t := by simp
  simp only [h3, Option.some.injEq, List.length_cons] at h
  rcases h with h | ⟨t', rfl, h1, h2, h4⟩ | ⟨rfl, h⟩ | ⟨rfl, h⟩ | ⟨L, rfl, hL, h⟩
  · omega
  · exact ⟨_, _, Unmarshal_unknown v c rsv _ rest hrest ⟨h1, h2, h4⟩, rfl⟩
  · exact ⟨_, _, Unmarshal_fixed_mismatch v c rsv IPV4 4 rest hrest (Or.inl ⟨rfl, rfl⟩)
      (by push_cast at h ⊢; omega), rfl⟩
  · exact ⟨_, _, Unmarshal_fixed_mismatch v c rsv IPV6 16 rest hrest (Or.inr ⟨rfl, rfl⟩)
      (by push_cast at h ⊢; omega), rfl⟩
  · match rest, hrest, hL with
    | L' :: rest, hrest, hL =>
      have hLL : L' = L := by simpa using hL
      subst hLL
      simp only [List.length_cons] at h hrest
      exact ⟨_, _, Unmarshal_domain_mismatch v c rsv L' rest (by omega)
        (by push_cast at h ⊢; omega), rfl⟩

/-- C6 at a DOMAIN frame that declares 9 address bytes and carries 2, and at an IPv4 frame
followed by one trailing byte. -/
theorem Unmarshal_framing_rejection_witness :
    (∃ r e, Unmarshal [5, 1, 0, 3, 9, 103, 111, 0, 80] = some (r, some e) ∧
      e.isFraming = true) ∧
    (∃ r e, Unmarshal ([5, 1, 0, 1] ++ [] ++ [8, 8, 8, 8] ++ [0, 80] ++ [71]) =
      some (r, some e) ∧ e.isFraming = true) :=
  ⟨Unmarshal_framing_rejection.1 [5, 1, 0, 3, 9, 103, 111, 0, 80]
      (Or.inr (Or.inr (Or.inr (Or.inr ⟨9, by decide, by decide, by decide⟩)))),
   Unmarshal_framing_rejection.2 5 1 0 1 [] [8, 8, 8, 8] [0, 80] [71] rfl
      (Or.inr (Or.inl ⟨rfl, rfl, rfl⟩)) (by decide)⟩

/-- C7 (validation rejection on decode). For every buffer that passes the framing checks,
that is a header `v c rsv t`, the length byte of a DOMAIN address, an address of the declared
length and two port bytes, `Unmarshal` returns the decoded Request together with an error of
`Valid` whenever the version is not 5, or the command is not CONNECT, or the address is empty
(DOMAIN with length byte 0), or the address type is IPv6, or both port bytes are zero. -/
theorem Unmarshal_validation_rejection (v c rsv t p1 p2 : Nat) (pre addr : List Nat)
    (hframe : (t = DOMAIN ∧ pre = [addr.length]) ∨ (t = IPV4 ∧ pre = [] ∧ addr.length = 4) ∨
      (t = IPV6 ∧ pre = [] ∧ addr.length = 16))
    (hbad : v ≠ 5 ∨ c ≠ CONNECT ∨ addr = [] ∨ t = IPV6 ∨ (p1 = 0 ∧ p2 = 0)) :
    ∃ e, Unmarshal ([v, c, rsv, t] ++ pre ++ addr ++ [p1, p2]) =
        some (⟨v, c, t, addr, [p1, p2]⟩, some e) ∧ e.isValidation = true := by
  rw [Unmarshal_framed v c rsv t pre addr [p1, p2] rfl hframe, Valid_two]
  simp only [Option.map_some', Option.some.injEq, Prod.mk.injEq, true_and]
  split_ifs with h1 h2 h3 h4 h5
  · exact ⟨_, rfl, rfl⟩
  · exact ⟨_, rfl, rfl⟩
  · exact ⟨_, rfl, rfl⟩
  · exact ⟨_, rfl, rfl⟩
  · exact ⟨_, rfl, rfl⟩
  · exfalso
    simp only [ne_eq, not_not, not_and_or] at h1 h2 h4
    rcases hbad with h | h | h | h | h
    · exact h h1
    · exact h h2
    · exact h3 (by simp [h])
    · subst h; rcases h4 with h4 | h4 <;> exact absurd h4 (by decide)
    · exact h5 h

/-- C7 at the IPv4 frame 05 02 00 01 08 08 08 08 00 50, whose command is BIND. -/
theorem Unmarshal_validation_rejection_witness :
    ∃ e, Unmarshal ([5, 2, 0, 1] ++ [] ++ [8, 8, 8, 8] ++ [0, 80]) =
        some (⟨5, 2, 1, [8, 8, 8, 8], [0, 80]⟩, some e) ∧ e.isValidation = true :=
  Unmarshal_validation_rejection 5 2 0 1 0 80 [] [8, 8, 8, 8]
    (Or.inr (Or.inl ⟨rfl, rfl, rfl⟩)) (Or.inr (Or.inl (by decide)))

/-- C8 (validation rules of `Valid`) does not hold of the code for a port shorter than two
bytes. `Valid` only tests `len(r.Port) > 2` before it reads `r.Port[0]` and `r.Port[1]`: on
an empty port and on the one-byte port 00 it stops with an index-out-of-range panic, and the
one-byte port 50 is accepted with a nil error. -/
theorem Valid_short_port :
    Request.Valid ⟨5, CONNECT, IPV4, [8, 8, 8, 8], []⟩ = none ∧
    Request.Valid ⟨5, CONNECT, IPV4, [8, 8, 8, 8], [0]⟩ = none ∧
    Request.Valid ⟨5, CONNECT, IPV4, [8, 8, 8, 8], [80]⟩ = some none := by
  decide

/-- C9 (wire layout of `Marshal`). For every Request `r` whose address has at most 255
bytes and whose port has 1 or 2 bytes, `Marshal(r)` is `Ver, Cmd, 0x00, Atyp`, then the byte
`len(Addr)` exactly when `Atyp = DOMAIN`, then `Addr`, then the two port bytes, a one-byte
port `p` being emitted as `0x00, p`. -/
theorem Marshal_layout (r : Request) (haddr : r.Addr.length ≤ 255)
    (hport : r.Port.length = 1 ∨ r.Port.length = 2) :
    (Marshal r).1 = [r.Ver, r.Cmd, 0, r.Atyp] ++
      (if r.Atyp = DOMAIN then [r.Addr.length] else []) ++ r.Addr ++
      (match r.Port with
        | [p] => [0, p]
        | port => port) := by
  obtain ⟨v, c, t, addr, port⟩ := r
  simp only at haddr hport
  have hmod : addr.length % 256 = addr.length := Nat.mod_eq_of_lt (by omega)
  rcases hport with h | h
  · match port, h with
    | [p], _ =>
      by_cases ht : t = DOMAIN <;> simp [Marshal, ht, hmod]
  · match port, h with
    | [p, q], _ =>
      by_cases ht : t = DOMAIN <;> simp [Marshal, ht, hmod]

/-- C9 at a DOMAIN request with the one-byte port 50. -/
theorem Marshal_layout_witness :
    (Marshal ⟨5, 0, DOMAIN, [103, 111], [80]⟩).1 = [5, 0, 0, 3, 2, 103, 111, 0, 80] :=
  Marshal_layout ⟨5, 0, DOMAIN, [103, 111], [80]⟩ (by decide) (Or.inl rfl)

/-- C10 (port codec). For every 16-bit unsigned integer `i`, `IntToBytes(i)` is the
big-endian pair `[i / 256, i mod 256]` and `BytesToInt(IntToBytes(i)) = i`; and for every
slice `b` of two bytes, `IntToBytes(BytesToInt(b)) = b`. -/
theorem IntToBytes_BytesToInt (i : Nat) (b : List Nat) (hi : i < 65536)
    (hlen : b.length = 2) (hb : ∀ x ∈ b, x < 256) :
    IntToBytes i = [i / 256, i % 256] ∧ BytesToInt (IntToBytes i) = i ∧
      IntToBytes (BytesToInt b) = b := by
  have h1 : IntToBytes i = [i / 256, i % 256] := by
    simp only [IntToBytes, Nat.shiftRight_eq_div_pow]
    rw [Nat.mod_eq_of_lt (by omega)]
  refine ⟨h1, ?_, ?_⟩
  · rw [h1, BytesToInt_two _ _ (by omega) (by omega)]
    omega
  · match b, hlen, hb with
    | [x, y], _, hb =>
      have hx : x < 256 := hb x (by simp)
      have hy : y < 256 := hb y (by simp)
      rw [BytesToInt_two x y hx hy]
      simp only [IntToBytes, Nat.shiftRight_eq_div_pow]
      congr 1
      · omega
      · congr 1; omega

/-- C10 at the port 80 and the bytes 00 50 of the test. -/
theorem IntToBytes_BytesToInt_witness :
    IntToBytes 80 = [80 / 256, 80 % 256] ∧ BytesToInt (IntToBytes 80) = 80 ∧
      IntToBytes (BytesToInt [0, 80]) = [0, 80] :=
  IntToBytes_BytesToInt 80 [0, 80] (by decide) rfl (by decide)

/-! ## Lemmas on the handshake and on `io.ReadAtLeast` -/

/-- A `Read` changes nothing of a stream but its input. -/
theorem Conn.Read_keeps (c : Conn) (p : List Nat) :
    (c.Read p).2.2.2.output = c.output ∧ (c.Read p).2.2.2.writeBudget = c.writeBudget ∧
      (c.Read p).2.2.2.closed = c.closed := by
  simp only [Conn.Read]
  split_ifs
  · exact ⟨rfl, rfl, rfl⟩
  · cases c.input <;> exact ⟨rfl, rfl, rfl⟩

/-- A `Write` that fails leaves the stream as it is. -/
theorem Conn.Write_error (c c' : Conn) (p : List Nat) (n : Nat) (e : Error)
    (h : c.Write p = (n, some e, c')) : c' = c ∧ c.writeBudget = some 0 := by
  obtain ⟨i, o, w, cl⟩ := c
  match w, h with
  | some 0, h =>
    simp only [Conn.Write, Prod.mk.injEq] at h
    exact ⟨h.2.2.symm, rfl⟩

/-- A `Write` leaves the input and the count of `Close` calls as they are; when it succeeds
it appends its bytes to the output. -/
theorem Conn.Write_keeps (c : Conn) (p : List Nat) :
    (c.Write p).2.2.input = c.input ∧ (c.Write p).2.2.closed = c.closed ∧
      ((c.Write p).2.1 = none → (c.Write p).2.2.output = c.output ++ p) := by
  obtain ⟨i, o, w, cl⟩ := c
  match w with
  | none => exact ⟨rfl, rfl, fun _ => rfl⟩
  | some 0 => exact ⟨rfl, rfl, fun h => by simp [Conn.Write] at h⟩
  | some (k + 1) => exact ⟨rfl, rfl, fun _ => rfl⟩

/-- The loop of `Handshake` ends with an error only when its `Write` fails, and then the
stream is as before. -/
theorem Handshake_loop_error (s s' : Conn) (l : List Nat) (e : Error)
    (h : SocksConn.Handshake.loop s l = some (some e, s')) : s' = s := by
  induction l with
  | nil => simp [SocksConn.Handshake.loop] at h
  | cons b bs ih =>
    simp only [SocksConn.Handshake.loop] at h
    split_ifs at h with hb
    · rcases hw : s.Write [VERSION, 0] with ⟨n, err, s1⟩
      rw [hw] at h
      cases err with
      | none => simp at h
      | some e1 =>
        simp only [Option.some.injEq, Prod.mk.injEq] at h
        rw [← h.2]
        exact (Conn.Write_error s s1 _ n e1 hw).1
    · exact ih h

/-- The loop of `Handshake` ends without an error only after a `Write` of 05 00. -/
theorem Handshake_loop_ok (s s' : Conn) (l : List Nat)
    (h : SocksConn.Handshake.loop s l = some (none, s')) :
    s'.output = s.output ++ [5, 0] ∧ s'.input = s.input ∧ s'.closed = s.closed := by
  induction l with
  | nil => simp [SocksConn.Handshake.loop] at h
  | cons b bs ih =>
    simp only [SocksConn.Handshake.loop] at h
    split_ifs at h with hb
    · have hk := Conn.Write_keeps s [VERSION, 0]
      rcases hw : s.Write [VERSION, 0] with ⟨n, err, s1⟩
      rw [hw] at h hk
      cases err with
      | some e1 => simp at h
      | none =>
        simp only [Option.some.injEq, Prod.mk.injEq, true_and] at h
        subst h
        exact ⟨hk.2.2 rfl, hk.1, hk.2.1⟩
    · exact ih h

/-- When `Handshake` returns an error it has written nothing, and the write budget and the
count of `Close` calls of the stream are as before. -/
theorem Handshake_error_quiet (c c1 : Conn) (e : Error)
    (h : SocksConn.Handshake c = some (some e, c1)) :
    c1.output = c.output ∧ c1.writeBudget = c.writeBudget ∧ c1.closed = c.closed := by
  have k1 := Conn.Read_keeps c (List.replicate 2 0)
  simp only [SocksConn.Handshake] at h
  rcases h1 : c.Read (List.replicate 2 0) with ⟨buf, n, err, s⟩
  rw [h1] at h k1
  simp only at h k1
  split at h
  · rename_i ver nmethods _ _
    split_ifs at h with hv hn
    · simp only [Option.some.injEq, Prod.mk.injEq] at h
      rw [← h.2]; exact k1
    · simp only [Option.some.injEq, Prod.mk.injEq] at h
      rw [← h.2]; exact k1
    · have k2 := Conn.Read_keeps s (List.replicate nmethods 0)
      rcases h2 : s.Read (List.replicate nmethods 0) with ⟨buf2, nread, err2, s2⟩
      rw [h2] at h k2
      simp only at h k2
      cases err2 with
      | some e2 =>
        simp only [Option.some.injEq, Prod.mk.injEq] at h
        rw [← h.2]
        exact ⟨k2.1.trans k1.1, k2.2.1.trans k1.2.1, k2.2.2.trans k1.2.2⟩
      | none =>
        simp only at h
        cases hl : SocksConn.Handshake.loop s2 (List.range (List.take nread buf2).length) with
        | none =>
          rw [hl] at h
          simp only [Option.some.injEq, Prod.mk.injEq] at h
          rw [← h.2]
          exact ⟨k2.1.trans k1.1, k2.2.1.trans k1.2.1, k2.2.2.trans k1.2.2⟩
        | some res =>
          rw [hl] at h
          simp only [Option.some.injEq] at h
          subst h
          have := Handshake_loop_error s2 c1 _ e hl
          subst this
          exact ⟨k2.1.trans k1.1, k2.2.1.trans k1.2.1, k2.2.2.trans k1.2.2⟩
  · simp at h

/-- When `Handshake` returns no error it has written exactly 05 00, and the count of `Close`
calls of the stream is as before. -/
theorem Handshake_ok_output (c c1 : Conn)
    (h : SocksConn.Handshake c = some (none, c1)) :
    c1.output = c.output ++ [5, 0] ∧ c1.closed = c.closed := by
  have k1 := Conn.Read_keeps c (List.replicate 2 0)
  simp only [SocksConn.Handshake] at h
  rcases h1 : c.Read (List.replicate 2 0) with ⟨buf, n, err, s⟩
  rw [h1] at h k1
  simp only at h k1
  split at h
  · rename_i ver nmethods _ _
    split_ifs at h with hv hn
    · simp at h
    · simp at h
    · have k2 := Conn.Read_keeps s (List.replicate nmethods 0)
      rcases h2 : s.Read (List.replicate nmethods 0) with ⟨buf2, nread, err2, s2⟩
      rw [h2] at h k2
      simp only at h k2
      cases err2 with
      | some e2 => simp at h
      | none =>
        simp only at h
        cases hl : SocksConn.Handshake.loop s2 (List.range (List.take nread buf2).length) with
        | none => rw [hl] at h; simp at h
        | some res =>
          rw [hl] at h
          simp only [Option.some.injEq] at h
          subst h
          have := Handshake_loop_ok s2 c1 _ hl
          exact ⟨by rw [this.1, k2.1, k1.1], by rw [this.2.2, k2.2.2, k1.2.2]⟩
  · simp at h

/-- Once `n ≥ min` or an error is set, the loop of `io.ReadAtLeast` is over. -/
theorem ReadAtLeast_loop_exit (min fuel : Nat) (r : Conn) (buf : List Nat) (n : Nat)
    (err : Option Error) (h : ¬ (n < min ∧ err = none)) :
    ReadAtLeast.loop min fuel r buf n err = some (buf, n, err, r) := by
  cases fuel <;> simp only [ReadAtLeast.loop, h, if_false]

/-- When the first `Read` returns at least `min` bytes, `io.ReadAtLeast` returns what that
`Read` returned. -/
theorem ReadAtLeast_one (r r1 : Conn) (buf p : List Nat) (n min : Nat) (hmin : 0 < min)
    (hlen : min ≤ buf.length) (hread : r.Read buf = (p, n, none, r1)) (hn : min ≤ n) :
    ReadAtLeast r buf min = some (p, n, none, r1) := by
  have h1 : ¬ buf.length < min := by omega
  have hc : (0 < min ∧ (none : Option Error) = none) := ⟨hmin, rfl⟩
  have hr : r.input.length + min + 1 = (r.input.length + min) + 1 := rfl
  simp only [ReadAtLeast, h1, if_false]
  rw [hr]
  simp only [ReadAtLeast.loop, hc, if_true, List.drop_zero, hread, List.take_zero,
    List.nil_append, Nat.zero_add]
  rw [ReadAtLeast_loop_exit min _ r1 p n none (by omega)]
  simp [hn]

/-- A `Read` returns a slice as long as the one it was given. -/
theorem Conn.Read_length (c : Conn) (p : List Nat) : (c.Read p).1.length = p.length := by
  simp only [Conn.Read]
  split_ifs
  · rfl
  · cases c.input with
    | nil => rfl
    | cons seg rest =>
      simp only [List.length_append, List.length_take, List.length_drop]
      omega

/-- The rounds given to the loop of `io.ReadAtLeast` suffice: with `fuel` above the number
of segments left plus the number of bytes still missing, the loop returns. -/
theorem ReadAtLeast_loop_returns (min : Nat) :
    ∀ (fuel : Nat) (r : Conn) (buf : List Nat) (n : Nat) (err : Option Error),
      min ≤ buf.length → (err = none → r.input.length + (min - n) + 1 ≤ fuel) →
      (ReadAtLeast.loop min fuel r buf n err).isSome = true := by
  intro fuel
  induction fuel with
  | zero =>
    intro r buf n err _ hf
    have : ¬ (n < min ∧ err = none) := fun h => by have := hf h.2; omega
    simp [ReadAtLeast.loop, this]
  | succ k ih =>
    intro r buf n err hb hf
    simp only [ReadAtLeast.loop]
    split_ifs with hc
    · obtain ⟨hn, rfl⟩ := hc
      have hf := hf rfl
      have hl := Conn.Read_length r (List.drop n buf)
      have hp : 0 < (List.drop n buf).length := by simp only [List.length_drop]; omega
      have hne : ¬ (List.drop n buf).length = 0 := by omega
      rcases hr : r.Read (List.drop n buf) with ⟨p, nn, e1, r1⟩
      rw [hr] at hl
      simp only at hl
      have hb' : min ≤ (List.take n buf ++ p).length := by
        simp only [List.length_append, List.length_take, hl, List.length_drop]; omega
      apply ih r1 _ _ _ hb'
      intro he
      simp only [Conn.Read, hne, if_false] at hr
      cases hi : r.input with
      | nil => rw [hi] at hr; simp only [Prod.mk.injEq] at hr; rw [← hr.2.2.1] at he; simp at he
      | cons seg rest =>
        rw [hi] at hr hf
        simp only [Prod.mk.injEq] at hr
        obtain ⟨-, hnn, -, hr1⟩ := hr
        have hd : (List.drop n buf).length = buf.length - n := List.length_drop n buf
        simp only [List.length_cons] at hf
        rw [← hr1, ← hnn]
        simp only
        split_ifs with hs
        · omega
        · simp only [List.length_cons]
          omega
    · rfl

/-- Library `io.ReadAtLeast` always returns in the model: the rounds never run out. -/
theorem ReadAtLeast_returns (r : Conn) (buf : List Nat) (min : Nat) :
    (ReadAtLeast r buf min).isSome = true := by
  simp only [ReadAtLeast]
  split_ifs with h
  · rfl
  · have := ReadAtLeast_loop_returns min (r.input.length + min + 1) r buf 0 none (by omega)
      (fun _ => by omega)
    cases hl : ReadAtLeast.loop min (r.input.length + min + 1) r buf 0 none with
    | none => rw [hl] at this; simp at this
    | some res =>
      obtain ⟨b1, n1, e1, r1⟩ := res
      simp only
      split_ifs <;> rfl

/-- The loop of `io.ReadAtLeast` changes nothing of the stream but its input. -/
theorem ReadAtLeast_loop_keeps (min : Nat) :
    ∀ (fuel : Nat) (r : Conn) (buf : List Nat) (n : Nat) (err : Option Error)
      (b' : List Nat) (n' : Nat) (e' : Option Error) (r' : Conn),
      ReadAtLeast.loop min fuel r buf n err = some (b', n', e', r') →
      r'.output = r.output ∧ r'.writeBudget = r.writeBudget ∧ r'.closed = r.closed := by
  intro fuel
  induction fuel with
  | zero =>
    intro r buf n err b' n' e' r' h
    simp only [ReadAtLeast.loop] at h
    split_ifs at h
    simp only [Option.some.injEq, Prod.mk.injEq] at h
    rw [← h.2.2.2]
    exact ⟨rfl, rfl, rfl⟩
  | succ k ih =>
    intro r buf n err b' n' e' r' h
    simp only [ReadAtLeast.loop] at h
    split_ifs at h
    · have k1 := Conn.Read_keeps r (List.drop n buf)
      rcases hr : r.Read (List.drop n buf) with ⟨p, nn, e1, r1⟩
      rw [hr] at h k1
      have := ih r1 _ _ _ _ _ _ _ h
      exact ⟨this.1.trans k1.1, this.2.1.trans k1.2.1, this.2.2.trans k1.2.2⟩
    · simp only [Option.some.injEq, Prod.mk.injEq] at h
      rw [← h.2.2.2]
      exact ⟨rfl, rfl, rfl⟩

/-- Library `io.ReadAtLeast` changes nothing of the stream but its input. -/
theorem ReadAtLeast_keeps (r r' : Conn) (buf b' : List Nat) (min n' : Nat) (e' : Option Error)
    (h : ReadAtLeast r buf min = some (b', n', e', r')) :
    r'.output = r.output ∧ r'.writeBudget = r.writeBudget ∧ r'.closed = r.closed := by
  simp only [ReadAtLeast] at h
  split_ifs at h
  · simp only [Option.some.injEq, Prod.mk.injEq] at h
    rw [← h.2.2.2]
    exact ⟨rfl, rfl, rfl⟩
  · cases hl : ReadAtLeast.loop min (r.input.length + min + 1) r buf 0 none with
    | none => rw [hl] at h; simp at h
    | some res =>
      obtain ⟨b1, n1, e1, r1⟩ := res
      rw [hl] at h
      have k := ReadAtLeast_loop_keeps min _ _ _ _ _ _ _ _ _ hl
      simp only at h
      split_ifs at h <;>
      · simp only [Option.some.injEq, Prod.mk.injEq] at h
        rw [← h.2.2.2]
        exact k

/-! ## Lemmas on the session -/

/-- A CONNECT frame with version 5, an IPv4 address of 4 bytes or a DOMAIN address of one
byte or more, and a port that is not zero, is decoded without an error. -/
theorem Unmarshal_connect_frame (rsv t p1 p2 : Nat) (pre addr : List Nat)
    (hshape : (t = IPV4 ∧ pre = [] ∧ addr.length = 4) ∨
      (t = DOMAIN ∧ pre = [addr.length] ∧ 1 ≤ addr.length))
    (hport : ¬ (p1 = 0 ∧ p2 = 0)) :
    Unmarshal ([5, 1, rsv, t] ++ pre ++ addr ++ [p1, p2]) =
      some (⟨5, CONNECT, t, addr, [p1, p2]⟩, none) := by
  have hframe : (t = DOMAIN ∧ pre = [addr.length]) ∨ (t = IPV4 ∧ pre = [] ∧ addr.length = 4) ∨
      (t = IPV6 ∧ pre = [] ∧ addr.length = 16) := by
    rcases hshape with ⟨h1, h2, h3⟩ | ⟨h1, h2, -⟩
    · exact Or.inr (Or.inl ⟨h1, h2, h3⟩)
    · exact Or.inl ⟨h1, h2⟩
  have hne : ¬ addr.length = 0 := by
    rcases hshape with ⟨-, -, h3⟩ | ⟨-, -, h3⟩ <;> omega
  have ht : ¬ (t ≠ IPV4 ∧ t ≠ DOMAIN) := by
    rcases hshape with ⟨h1, -, -⟩ | ⟨h1, -, -⟩ <;> simp [h1]
  rw [Unmarshal_framed 5 1 rsv t pre addr [p1, p2] rfl hframe, Valid_two]
  simp only [ne_eq, not_true_eq_false, if_false, hne, ht, hport, Option.map_some']

/-- One `Read` into a slice of 261 bytes, when the first segment of the input has at most
261 bytes: the whole segment is returned. -/
theorem Conn.Read_segment (c : Conn) (seg : List Nat) (rest : List (List Nat))
    (hin : c.input = seg :: rest) (hlen : seg.length ≤ 261) :
    c.Read (List.replicate 261 0) =
      (seg ++ List.replicate (261 - seg.length) 0, seg.length, none, { c with input := rest }) := by
  have h0 : ¬ (List.replicate 261 0).length = 0 := by
    rw [List.length_replicate]; omega
  have hm : min 261 seg.length = seg.length := by omega
  unfold Conn.Read
  rw [if_neg h0, hin]
  simp only [List.length_replicate, hm, List.take_length, List.drop_replicate, le_refl, if_true]

/-- What `HandleRequest` does once `io.ReadAtLeast` has returned the bytes `buf[:nread]`
and these are decoded without an error: one call of `Dial`, whose error is returned. -/
theorem HandleRequest_of_decoded (d : Dialer) (s : Session) (buf : List Nat) (nread : Nat)
    (c1 : Conn) (r : Request)
    (hread : ReadAtLeast s.client (List.replicate 261 0) 4 = some (buf, nread, none, c1))
    (hdec : Unmarshal (buf.take nread) = some (r, none)) (hcmd : r.Cmd = CONNECT) :
    SocksConn.HandleRequest d s =
      some ((d r.Addr r.Atyp r.Port c1).1,
        ⟨(d r.Addr r.Atyp r.Port c1).2.1, s.dials ++ [(r.Addr, r.Atyp, r.Port)],
          s.outbound ++ (d r.Addr r.Atyp r.Port c1).2.2.toList⟩) := by
  unfold SocksConn.HandleRequest
  rw [hread]
  simp only
  rw [hdec]
  simp only [hcmd, if_true]

/-- What `HandleRequest` does once `io.ReadAtLeast` has returned the bytes `buf[:nread]`
and `Unmarshal` returns an error on them: the error is returned, `Dial` is not called. -/
theorem HandleRequest_of_rejected (d : Dialer) (s : Session) (buf : List Nat) (nread : Nat)
    (c1 : Conn) (r : Request) (e : Error)
    (hread : ReadAtLeast s.client (List.replicate 261 0) 4 = some (buf, nread, none, c1))
    (hdec : Unmarshal (buf.take nread) = some (r, some e)) :
    SocksConn.HandleRequest d s = some (some e, ⟨c1, s.dials, s.outbound⟩) := by
  unfold SocksConn.HandleRequest
  rw [hread]
  simp only
  rw [hdec]

/-- A `Write` on a stream that still accepts writes: all effects. -/
theorem Conn.Write_ok_full (c : Conn) (p : List Nat) (h : c.writeBudget ≠ some 0) :
    (c.Write p).2.2.output = c.output ++ p ∧ (c.Write p).2.2.input = c.input ∧
      (c.Write p).2.2.closed = c.closed := by
  obtain ⟨i, o, w, cl⟩ := c
  match w, h with
  | none, _ => exact ⟨rfl, rfl, rfl⟩
  | some (k + 1), _ => exact ⟨rfl, rfl, rfl⟩

/-- For a 16-bit port `IntToBytes` is the pair of its high and low byte. -/
theorem IntToBytes_eq (p : Nat) (hp : p < 65536) : IntToBytes p = [p / 256, p % 256] := by
  simp only [IntToBytes, Nat.shiftRight_eq_div_pow]
  rw [Nat.mod_eq_of_lt (by omega)]

/-- A request that `Unmarshal` returns without an error has the command CONNECT. -/
theorem Unmarshal_ok_cmd (b : List Nat) (r : Request) (h : Unmarshal b = some (r, none)) :
    r.Cmd = CONNECT := by
  rcases Unmarshal_cases b with
    ⟨r', e, hr, -⟩ | ⟨v, c, rsv, t, pre, addr, port, hport, hshape, rfl⟩
  · rw [hr] at h; simp at h
  · rw [Unmarshal_framed v c rsv t pre addr port hport hshape] at h
    obtain ⟨p1, p2, rfl⟩ := exists_pair port hport
    rw [Valid_two] at h
    simp only [Option.map_some', Option.some.injEq, Prod.mk.injEq] at h
    obtain ⟨rfl, hv⟩ := h
    split_ifs at hv with h1 h2
    simp only [ne_eq, not_not] at h2
    exact h2

/-- The errors of `Valid` are validation errors. -/
theorem Valid_two_error (v c t p1 p2 : Nat) (addr : List Nat) :
    ∃ e, Request.Valid ⟨v, c, t, addr, [p1, p2]⟩ = some e ∧
      (e = none ∨ ∃ x, e = some x ∧ x.isValidation = true) := by
  rw [Valid_two]
  refine ⟨_, rfl, ?_⟩
  split_ifs
  · exact Or.inr ⟨_, rfl, rfl⟩
  · exact Or.inr ⟨_, rfl, rfl⟩
  · exact Or.inr ⟨_, rfl, rfl⟩
  · exact Or.inr ⟨_, rfl, rfl⟩
  · exact Or.inr ⟨_, rfl, rfl⟩
  · exact Or.inl rfl

/-! ## Claims C11 to C20 -/

/-- C11 (dispatch of CONNECT). Let the first segment the client stream delivers be a CONNECT
frame with version 5, an IPv4 address of 4 bytes or a DOMAIN address of 1 byte or more, and
a port that is not zero, of at most 261 bytes, so that one `Read` delivers it in full. Then
`HandleRequest` calls `Dial` exactly once, with the decoded address bytes, address type and
2 port bytes, and returns exactly the error `Dial` returns. And whenever `Unmarshal` returns
an error on the bytes read (decoding or validation), `HandleRequest` returns that error and
`Dial` is not called. -/
theorem HandleRequest_dispatch (d : Dialer) (s : Session) :
    (∀ (rsv t p1 p2 : Nat) (pre addr : List Nat) (rest : List (List Nat)),
      ((t = IPV4 ∧ pre = [] ∧ addr.length = 4) ∨
        (t = DOMAIN ∧ pre = [addr.length] ∧ 1 ≤ addr.length)) →
      ¬ (p1 = 0 ∧ p2 = 0) →
      s.client.input = ([5, 1, rsv, t] ++ pre ++ addr ++ [p1, p2]) :: rest →
      ([5, 1, rsv, t] ++ pre ++ addr ++ [p1, p2]).length ≤ 261 →
      SocksConn.HandleRequest d s =
        some ((d addr t [p1, p2] { s.client with input := rest }).1,
          ⟨(d addr t [p1, p2] { s.client with input := rest }).2.1,
            s.dials ++ [(addr, t, [p1, p2])],
            s.outbound ++ (d addr t [p1, p2] { s.client with input := rest }).2.2.toList⟩)) ∧
    (∀ (buf : List Nat) (nread : Nat) (c1 : Conn) (r : Request) (e : Error),
      ReadAtLeast s.client (List.replicate 261 0) 4 = some (buf, nread, none, c1) →
      Unmarshal (buf.take nread) = some (r, some e) →
      SocksConn.HandleRequest d s = some (some e, ⟨c1, s.dials, s.outbound⟩)) := by
  refine ⟨?_, fun buf nread c1 r e => HandleRequest_of_rejected d s buf nread c1 r e⟩
  intro rsv t p1 p2 pre addr rest hshape hport hin hlen
  have hread := Conn.Read_segment s.client _ rest hin hlen
  have h4 : 4 ≤ ([5, 1, rsv, t] ++ pre ++ addr ++ [p1, p2]).length := by simp
  have hral := ReadAtLeast_one s.client _ (List.replicate 261 0) _ _ 4 (by omega)
    (by rw [List.length_replicate]; omega) hread h4
  have hdec : Unmarshal (List.take ([5, 1, rsv, t] ++ pre ++ addr ++ [p1, p2]).length
      ([5, 1, rsv, t] ++ pre ++ addr ++ [p1, p2] ++
        List.replicate (261 - ([5, 1, rsv, t] ++ pre ++ addr ++ [p1, p2]).length) 0)) =
      some (⟨5, CONNECT, t, addr, [p1, p2]⟩, none) := by
    rw [List.take_left']
    · exact Unmarshal_connect_frame rsv t p1 p2 pre addr hshape hport
    · rfl
  exact HandleRequest_of_decoded d s _ _ _ _ hral hdec rfl

set_option maxRecDepth 100000 in
/-- C11 at the frame for "google.se", port 80, and at a frame with the command BIND. -/
theorem HandleRequest_dispatch_witness :
    SocksConn.HandleRequest refusingDialer
        ⟨⟨[[5, 1, 0, 3, 9, 103, 111, 111, 103, 108, 101, 46, 115, 101, 0, 80]], [], none, 0⟩, [], []⟩ =
      some (some .dialError,
        ⟨⟨[], [], none, 0⟩, [([103, 111, 111, 103, 108, 101, 46, 115, 101], DOMAIN, [0, 80])], []⟩) ∧
    SocksConn.HandleRequest refusingDialer ⟨⟨[[5, 2, 0, 1, 8, 8, 8, 8, 0, 80]], [], none, 0⟩, [], []⟩ =
      some (some .commandNotUnderstood, ⟨⟨[], [], none, 0⟩, [], []⟩) :=
  ⟨(HandleRequest_dispatch refusingDialer
      ⟨⟨[[5, 1, 0, 3, 9, 103, 111, 111, 103, 108, 101, 46, 115, 101, 0, 80]], [], none, 0⟩, [], []⟩).1
      0 DOMAIN 0 80 [9] [103, 111, 111, 103, 108, 101, 46, 115, 101] []
      (Or.inr ⟨rfl, rfl, by decide⟩) (by decide) rfl (by decide),
   (HandleRequest_dispatch refusingDialer
      ⟨⟨[[5, 2, 0, 1, 8, 8, 8, 8, 0, 80]], [], none, 0⟩, [], []⟩).2
      ([5, 2, 0, 1, 8, 8, 8, 8, 0, 80] ++ List.replicate 251 0) 10 ⟨[], [], none, 0⟩
      ⟨5, 2, 1, [8, 8, 8, 8], [0, 80]⟩ .commandNotUnderstood (by decide) (by decide)⟩

set_option maxRecDepth 100000 in
/-- C12 (maximum request size) does not hold of the code. The largest frame, 262 bytes with
a DOMAIN address of 255 bytes, is read into a buffer of 261 bytes: `Unmarshal` gets the
frame without its last byte and returns "Invalid address length: 255, remaining bytes:
254", so `HandleRequest` returns that error and `Dial` is not called, whatever the Dialer. -/
theorem HandleRequest_largest_frame (d : Dialer) :
    SocksConn.HandleRequest d
        ⟨⟨[[5, 1, 0, 3, 255] ++ List.replicate 255 97 ++ [0, 80]], [], none, 0⟩, [], []⟩ =
      some (some (.invalidAddressLength 255 254), ⟨⟨[[80]], [], none, 0⟩, [], []⟩) := by
  rfl

/-- C13 (session handshake failure). For every session in which `Handshake` returns an
error, on a client stream that accepts a `Write`, `Serve` returns that error, what it has
written to the client is exactly the two bytes 05 FF, it has read nothing after the
handshake, `Dial` was not called, no outbound stream was opened, and the client stream was
closed once. -/
theorem Serve_handshake_failure (env : Net) (d : Option Dialer) (c c1 : Conn) (e : Error)
    (hhs : SocksConn.Handshake c = some (some e, c1))
    (hwrite : c.writeBudget ≠ some 0) :
    ∃ s, Serve env c d = some (some e, s) ∧ s.client.output = c.output ++ [5, 255] ∧
      s.client.input = c1.input ∧ s.dials = [] ∧ s.outbound = [] ∧
      s.client.closed = c.closed + 1 := by
  have hq := Handshake_error_quiet c c1 e hhs
  have hw := Conn.Write_ok_full c1 [VERSION, 255] (by rw [hq.2.1]; exact hwrite)
  refine ⟨⟨(SocksConn.FailHandshake c1).Close, [], []⟩, ?_, ?_, ?_, rfl, rfl, ?_⟩
  · simp only [Serve, hhs, Option.map_some']
  · show (c1.Write [VERSION, 255]).2.2.output = _
    rw [hw.1, hq.1]
  · show (c1.Write [VERSION, 255]).2.2.input = _
    exact hw.2.1
  · show (c1.Write [VERSION, 255]).2.2.closed + 1 = _
    rw [hw.2.2, hq.2.2]

/-- C13 at a client whose first byte is 4. -/
theorem Serve_handshake_failure_witness :
    ∃ s, Serve refusingNet
        ⟨[[4, 1, 0], [5, 1, 0, 1, 8, 8, 8, 8, 0, 80]], [], none, 0⟩ none =
        some (some .invalidSocksVersion, s) ∧
      s.client.output = (⟨[[4, 1, 0], [5, 1, 0, 1, 8, 8, 8, 8, 0, 80]], [], none, 0⟩ : Conn).output ++
        [5, 255] ∧
      s.client.input = (⟨[[0], [5, 1, 0, 1, 8, 8, 8, 8, 0, 80]], [], none, 0⟩ : Conn).input ∧
      s.dials = [] ∧ s.outbound = [] ∧
      s.client.closed = (⟨[[4, 1, 0], [5, 1, 0, 1, 8, 8, 8, 8, 0, 80]], [], none, 0⟩ : Conn).closed + 1 :=
  Serve_handshake_failure refusingNet none
    ⟨[[4, 1, 0], [5, 1, 0, 1, 8, 8, 8, 8, 0, 80]], [], none, 0⟩
    ⟨[[0], [5, 1, 0, 1, 8, 8, 8, 8, 0, 80]], [], none, 0⟩ .invalidSocksVersion
    (by decide) (by decide)

/-- C15 (success reply format). For every 4-byte IP `a` and 16-bit port `p`,
`Marshal(NewReply(0x00, a, p))` is the 10 bytes 05 00 00 01, `a`, `p / 256`, `p mod 256`;
for every 16-byte IP `a` it is the 22 bytes 05 00 00 04, `a`, `p / 256`, `p mod 256`. -/
theorem Marshal_NewReply (a : List Nat) (p : Nat) (hp : p < 65536) :
    (a.length = 4 →
      (Marshal (NewReply 0 a p)).1 = [5, 0, 0, 1] ++ a ++ [p / 256, p % 256] ∧
      (Marshal (NewReply 0 a p)).1.length = 10) ∧
    (a.length = 16 →
      (Marshal (NewReply 0 a p)).1 = [5, 0, 0, 4] ++ a ++ [p / 256, p % 256] ∧
      (Marshal (NewReply 0 a p)).1.length = 22) := by
  have hport := IntToBytes_eq p hp
  constructor
  · intro h4
    have hm : (Marshal (NewReply 0 a p)).1 = [5, 0, 0, 1] ++ a ++ [p / 256, p % 256] := by
      rw [Marshal_of_port_ne_one _ (by simp [NewReply, hport])]
      simp [NewReply, IP.To4, h4, hport]
    exact ⟨hm, by rw [hm]; simp [h4]⟩
  · intro h16
    have hne : ¬ a.length = 4 := by omega
    have hm : (Marshal (NewReply 0 a p)).1 = [5, 0, 0, 4] ++ a ++ [p / 256, p % 256] := by
      rw [Marshal_of_port_ne_one _ (by simp [NewReply, hport])]
      simp [NewReply, IP.To16, h16, hport]
    exact ⟨hm, by rw [hm]; simp [h16]⟩

/-- C15 at the local address 10.0.0.1:4242. -/
theorem Marshal_NewReply_witness :
    (Marshal (NewReply 0 [10, 0, 0, 1] 4242)).1 = [5, 0, 0, 1] ++ [10, 0, 0, 1] ++ [4242 / 256, 4242 % 256] ∧
    (Marshal (NewReply 0 [10, 0, 0, 1] 4242)).1.length = 10 :=
  (Marshal_NewReply [10, 0, 0, 1] 4242 (by decide)).1 rfl

set_option maxRecDepth 100000 in
/-- C16, as stated, fails: in this successful CONNECT session with the default dialer the
client stream ends with two calls of `Close` (one by the relay, one deferred by `Serve`),
the outbound stream with one. -/
theorem Serve_closes_client_twice :
    Serve exampleNet ⟨[[5, 1, 0], [5, 1, 0, 1, 8, 8, 8, 8, 0, 80]], [], none, 0⟩ none =
      some (none,
        ⟨⟨[], [5, 0, 5, 0, 0, 1, 10, 0, 0, 1, 16, 146, 72, 105], none, 2⟩,
          [([8, 8, 8, 8], IPV4, [0, 80])], [⟨[], [], none, 1⟩]⟩) := by
  rfl

/-- C16, amended. For every successful CONNECT session served with the default dialer
(handshake accepted, request read and decoded without error, outbound connection
established, reply written), whatever the two copies of the relay did and in whatever
order they ended, when `Serve` returns the outbound stream has been closed exactly once and
`Close` has been called on the client stream exactly twice. -/
theorem Serve_relay_closes (env : Net) (c c1 c2 conn : Conn) (buf ip : List Nat)
    (nread lport : Nat) (r : Request)
    (hhs : SocksConn.Handshake c = some (none, c1))
    (hread : ReadAtLeast c1 (List.replicate 261 0) 4 = some (buf, nread, none, c2))
    (hdec : Unmarshal (buf.take nread) = some (r, none))
    (hnet : env.DialTimeout r.Atyp r.Addr (BytesToInt r.Port) = .ok (conn, ip, lport))
    (hwrite : c2.writeBudget ≠ some 0) :
    ∃ s o, Serve env c none = some (none, s) ∧ s.client.closed = c.closed + 2 ∧
      s.outbound = [o] ∧ o.closed = conn.closed + 1 := by
  have ho := Handshake_ok_output c c1 hhs
  have hk := ReadAtLeast_keeps _ _ _ _ _ _ _ hread
  have hcmd := Unmarshal_ok_cmd _ r hdec
  obtain ⟨c3, hw, -, -⟩ := Conn.Write_ok c2 (Marshal (NewReply 0 ip (lport % 65536))).1 hwrite
  have hwc := (Conn.Write_keeps c2 (Marshal (NewReply 0 ip (lport % 65536))).1).2.1
  rw [hw] at hwc
  simp only at hwc
  have hdial : defaultDialer.Dial env r.Addr r.Atyp r.Port c2 =
      (none, ({ (env.copies c3 conn).1 with closed := c3.closed } : Conn).Close,
        some ({ (env.copies c3 conn).2 with closed := conn.closed } : Conn).Close) := by
    simp only [defaultDialer.Dial, hnet, Request.WriteTo, hw]
  have hreq := HandleRequest_of_decoded (defaultDialer.Dial env) ⟨c1, [], []⟩ buf nread c2 r
    hread hdec hcmd
  rw [hdial] at hreq
  refine ⟨⟨(({ (env.copies c3 conn).1 with closed := c3.closed } : Conn).Close).Close,
      [(r.Addr, r.Atyp, r.Port)],
      [({ (env.copies c3 conn).2 with closed := conn.closed } : Conn).Close]⟩,
    ({ (env.copies c3 conn).2 with closed := conn.closed } : Conn).Close, ?_, ?_, rfl, rfl⟩
  · simp only [Serve, hhs, Option.getD_none, hreq, Option.map_some']
    rfl
  · show c3.closed + 1 + 1 = c.closed + 2
    rw [hwc, hk.2.2, ho.2]

set_option maxRecDepth 100000 in
/-- C16, amended, at a session for 8.8.8.8, port 80. -/
theorem Serve_relay_closes_witness :
    ∃ s o, Serve exampleNet ⟨[[5, 1, 0], [5, 1, 0, 1, 8, 8, 8, 8, 0, 80]], [], none, 0⟩ none =
        some (none, s) ∧
      s.client.closed =
        (⟨[[5, 1, 0], [5, 1, 0, 1, 8, 8, 8, 8, 0, 80]], [], none, 0⟩ : Conn).closed + 2 ∧
      s.outbound = [o] ∧ o.closed = (⟨[[72, 105]], [], none, 0⟩ : Conn).closed + 1 :=
  Serve_relay_closes exampleNet ⟨[[5, 1, 0], [5, 1, 0, 1, 8, 8, 8, 8, 0, 80]], [], none, 0⟩
    ⟨[[5, 1, 0, 1, 8, 8, 8, 8, 0, 80]], [5, 0], none, 0⟩ ⟨[], [5, 0], none, 0⟩
    ⟨[[72, 105]], [], none, 0⟩ ([5, 1, 0, 1, 8, 8, 8, 8, 0, 80] ++ List.replicate 251 0)
    [10, 0, 0, 1] 10 4242 ⟨5, 1, 1, [8, 8, 8, 8], [0, 80]⟩
    (by decide) (by rfl) (by decide) rfl (by decide)

set_option maxRecDepth 100000 in
/-- C17 (reply-write failure) does not hold of the code. With the outbound connection
established and the write of the success reply failing, the default `Dial` returns the write
error and copies nothing, but the outbound stream is left with no call of `Close`, also when
`Serve` has returned. -/
theorem Dial_reply_write_failure :
    defaultDialer.Dial exampleNet [8, 8, 8, 8] IPV4 [0, 80] ⟨[], [5, 0], some 0, 0⟩ =
      (some .writeError, ⟨[], [5, 0], some 0, 0⟩, some ⟨[[72, 105]], [], none, 0⟩) ∧
    Serve exampleNet ⟨[[5, 1, 0], [5, 1, 0, 1, 8, 8, 8, 8, 0, 80]], [], some 1, 0⟩ none =
      some (some .writeError,
        ⟨⟨[], [5, 0], some 0, 1⟩, [([8, 8, 8, 8], IPV4, [0, 80])],
          [⟨[[72, 105]], [], none, 0⟩]⟩) := by
  constructor <;> rfl

/-- C18, as stated, fails: with an empty port `Marshal` emits no port byte, with a port of
three bytes it emits all three. -/
theorem Marshal_port_width_counterexample :
    (Marshal ⟨5, CONNECT, IPV4, [8, 8, 8, 8], []⟩).1 = [5, 1, 0, 1, 8, 8, 8, 8] ∧
    (Marshal ⟨5, CONNECT, IPV4, [8, 8, 8, 8], []⟩).1.length ≠ 4 + 0 + 4 + 2 ∧
    (Marshal ⟨5, CONNECT, IPV4, [8, 8, 8, 8], [1, 2, 3]⟩).1 = [5, 1, 0, 1, 8, 8, 8, 8, 1, 2, 3] ∧
    (Marshal ⟨5, CONNECT, IPV4, [8, 8, 8, 8], [1, 2, 3]⟩).1.length ≠ 4 + 0 + 4 + 2 := by
  decide

/-- C18, amended. For every Request `r`, `len(Marshal(r))` is 4, plus 1 if `Atyp = DOMAIN`,
plus `len(Addr)`, plus 2 if the port has one byte and `len(Port)` otherwise; so the frame
carries exactly 2 port bytes whenever the in-memory port has 1 or 2 bytes. -/
theorem Marshal_length (r : Request) :
    (Marshal r).1.length = 4 + (if r.Atyp = DOMAIN then 1 else 0) + r.Addr.length +
        (if r.Port.length = 1 then 2 else r.Port.length) ∧
    (r.Port.length = 1 ∨ r.Port.length = 2 →
      (Marshal r).1.length = 4 + (if r.Atyp = DOMAIN then 1 else 0) + r.Addr.length + 2) := by
  have h : (Marshal r).1.length = 4 + (if r.Atyp = DOMAIN then 1 else 0) + r.Addr.length +
      (if r.Port.length = 1 then 2 else r.Port.length) := by
    by_cases hp : r.Port.length = 1
    · by_cases ht : r.Atyp = DOMAIN <;> simp [Marshal, hp, ht] <;> omega
    · rw [Marshal_of_port_ne_one r hp]
      by_cases ht : r.Atyp = DOMAIN <;> simp [hp, ht] <;> omega
  refine ⟨h, fun hp => ?_⟩
  rw [h]
  rcases hp with hp | hp <;> simp [hp]

/-- C18, amended, at a request with a one-byte port. -/
theorem Marshal_length_witness :
    (Marshal ⟨5, 0, DOMAIN, [103, 111], [80]⟩).1.length =
      4 + (if (⟨5, 0, DOMAIN, [103, 111], [80]⟩ : Request).Atyp = DOMAIN then 1 else 0) +
        (⟨5, 0, DOMAIN, [103, 111], [80]⟩ : Request).Addr.length + 2 :=
  (Marshal_length ⟨5, 0, DOMAIN, [103, 111], [80]⟩).2 (Or.inl rfl)

/-- C19 (reply status) does not hold of the code. `NewReply` sets `Cmd` to 0x00 whatever the
status: `NewReply(0x01, 10.0.0.1, 4242)` has `Ver = 5` and `Cmd = 0`, and `Marshal` of it
has 00 as its second byte. -/
theorem NewReply_drops_status :
    (∀ (status : Nat) (ip : List Nat) (port : Nat), (NewReply status ip port).Cmd = 0) ∧
    (NewReply 1 [10, 0, 0, 1] 4242).Ver = 5 ∧
    (NewReply 1 [10, 0, 0, 1] 4242).Cmd = 0 ∧
    (Marshal (NewReply 1 [10, 0, 0, 1] 4242)).1 = [5, 0, 0, 1, 10, 0, 0, 1, 16, 146] := by
  refine ⟨fun _ _ _ => rfl, ?_, ?_, ?_⟩ <;> decide

/-- C20 (totality of decoding). For every byte buffer `Unmarshal` returns a pair, without a
run-time panic. Either it returns one of its framing errors, before any read of the address,
or both reads succeed: the request it returns has a port of exactly 2 bytes and the error it
returns is the verdict of `Valid` on that request, which does not panic. The error is never
the `io.EOF` of a failed buffer read. -/
theorem Unmarshal_total (b : List Nat) :
    (Unmarshal b).isSome = true ∧
    ((∃ r e, Unmarshal b = some (r, some e) ∧ e.isFraming = true) ∨
      (∃ r e, Unmarshal b = some (r, e) ∧ r.Port.length = 2 ∧ r.Valid = some e ∧
        (e = none ∨ ∃ x, e = some x ∧ x.isValidation = true))) ∧
    (∀ r, Unmarshal b ≠ some (r, some .EOF)) := by
  have key : (∃ r e, Unmarshal b = some (r, some e) ∧ e.isFraming = true) ∨
      (∃ r e, Unmarshal b = some (r, e) ∧ r.Port.length = 2 ∧ r.Valid = some e ∧
        (e = none ∨ ∃ x, e = some x ∧ x.isValidation = true)) := by
    rcases Unmarshal_cases b with
      h | ⟨v, c, rsv, t, pre, addr, port, hport, hshape, rfl⟩
    · exact Or.inl h
    · right
      obtain ⟨p1, p2, rfl⟩ := exists_pair port hport
      obtain ⟨e, he, hcls⟩ := Valid_two_error v c t p1 p2 addr
      refine ⟨⟨v, c, t, addr, [p1, p2]⟩, e, ?_, rfl, he, hcls⟩
      rw [Unmarshal_framed v c rsv t pre addr [p1, p2] rfl hshape, he]
      rfl
  refine ⟨?_, key, ?_⟩
  · rcases key with ⟨r, e, h, -⟩ | ⟨r, e, h, -⟩ <;> rw [h] <;> rfl
  · intro r hr
    rcases key with ⟨r', e, h, hf⟩ | ⟨r', e, h, -, -, hcls⟩
    · rw [h] at hr
      simp only [Option.some.injEq, Prod.mk.injEq] at hr
      rw [hr.2] at hf
      exact absurd hf (by decide)
    · rw [h] at hr
      simp only [Option.some.injEq, Prod.mk.injEq] at hr
      rcases hcls with rfl | ⟨x, rfl, hx⟩
      · simp at hr
      · simp only [Option.some.injEq] at hr
        rw [hr.2] at hx
        exact absurd hx (by decide)

end Socks
